import Mathlib

/-!
Verification of the MARC-to-RIS thesis converter
(`MarcXML_2_RIS/Thesis_MarcXML_2_RIS.py`).

The development shallowly embeds the script: Python strings become `String`
(lists of Unicode scalar values, matching Python's code-point semantics),
Python's string methods are re-implemented below with their documented
semantics, the per-tag field mapper and both post-processing passes are
translated branch-for-branch, and the two files the script writes are
modelled as the exact character sequences produced by the `write` calls.
-/

set_option maxRecDepth 20000

namespace MarcRIS

/-! ### Python string primitives (on `List Char`, wrapped for `String`) -/

/-- Characters Python's no-argument `str.strip` / `str.rstrip` remove. -/
def isWs (c : Char) : Bool :=
  c = ' ' || c = '\t' || c = '\n' || c = '\r' || c = '\x0b' || c = '\x0c'

/-- Drop the longest run of characters satisfying `p` from the end. -/
def rstripL (p : Char → Bool) (l : List Char) : List Char :=
  (l.reverse.dropWhile p).reverse

/-- Drop the longest run of characters satisfying `p` from the front. -/
def lstripL (p : Char → Bool) (l : List Char) : List Char :=
  l.dropWhile p

/-- Python `s.rstrip(cs)`. -/
def pyRstrip (s : String) (cs : List Char) : String :=
  ⟨rstripL (fun c => cs.contains c) s.data⟩

/-- Python `s.lstrip(cs)`. -/
def pyLstrip (s : String) (cs : List Char) : String :=
  ⟨lstripL (fun c => cs.contains c) s.data⟩

/-- Python `s.strip(cs)`. -/
def pyStripCh (s : String) (cs : List Char) : String :=
  pyRstrip (pyLstrip s cs) cs

/-- Python `s.strip()` (whitespace). -/
def pyStrip (s : String) : String :=
  ⟨rstripL isWs (lstripL isWs s.data)⟩

/-- Python `s.rstrip()` (whitespace). -/
def pyRstripWs (s : String) : String :=
  ⟨rstripL isWs s.data⟩

/-- `startsL p l` is true iff `p` is a prefix of `l` (Python `startswith`). -/
def startsL : List Char → List Char → Bool
  | [], _ => true
  | _ :: _, [] => false
  | p :: ps, c :: cs => p = c && startsL ps cs

/-- Python `s.startswith(p)`. -/
def pyStarts (s p : String) : Bool :=
  startsL p.data s.data

/-- One replacement pass for `pyReplace`; `o :: os` is the pattern. -/
def replaceAux (o : Char) (os new : List Char) : List Char → List Char
  | [] => []
  | c :: rest =>
    if c = o ∧ os.isPrefixOf rest then
      new ++ replaceAux o os new (rest.drop os.length)
    else
      c :: replaceAux o os new rest
  termination_by l => l.length
  decreasing_by
  · simp only [List.length_cons, List.length_drop]; omega
  · simp only [List.length_cons]; omega

/-- Python `s.replace(old, new)` (all occurrences, left to right). -/
def pyReplace (s old new : String) : String :=
  match old.data with
  | [] => s
  | o :: os => ⟨replaceAux o os new.data s.data⟩

/-- Substring test used for Python's `needle in s`. -/
def containsSubAux (needle : List Char) : List Char → Bool
  | [] => needle.isEmpty
  | c :: rest => startsL needle (c :: rest) || containsSubAux needle rest

/-- Python `needle in s`. -/
def pyIn (needle s : String) : Bool :=
  containsSubAux needle.data s.data

/-- Whitespace-separated words, as produced by Python `s.split()`. -/
def wordsAux (cur : List Char) : List Char → List (List Char)
  | [] => if cur.isEmpty then [] else [cur.reverse]
  | c :: rest =>
    if isWs c then
      if cur.isEmpty then wordsAux [] rest else cur.reverse :: wordsAux [] rest
    else
      wordsAux (c :: cur) rest

/-- `len(s.split())`: the number of whitespace-separated tokens. -/
def pyWordCount (s : String) : Nat :=
  (wordsAux [] s.data).length

/-- Python `s[n:]`. -/
def strDrop (s : String) (n : Nat) : String :=
  ⟨s.data.drop n⟩

/-- Python `"sep".join`, specialised to the script's `"\n".join`. -/
def joinNL : List String → String
  | [] => ""
  | [a] => a
  | a :: rest => a ++ "\n" ++ joinNL rest

/-! ### Unicode NFC model

`unicodedata.normalize("NFC", s)` is an external library call.  It is
modelled by canonical composition restricted to the base/combining-mark
pairs that can occur in this repository's French bibliographic data;
on strings that are already composed (no combining marks) it is the
identity, exactly like real NFC on this character repertoire. -/

/-- Combining marks covered by the model. -/
def isMark (c : Char) : Bool :=
  c = '̀' || c = '́' || c = '̂' || c = '̈' || c = '̧'

/-- Base letters that can canonically compose in the model. -/
def isBase (c : Char) : Bool :=
  c = 'a' || c = 'e' || c = 'i' || c = 'o' || c = 'u' || c = 'c' || c = 'h'

/-- Canonical composition of a base character with a combining mark. -/
def compose (b m : Char) : Option Char :=
  if m = '̀' then
    if b = 'a' then some 'à' else if b = 'e' then some 'è' else if b = 'i' then some 'ì'
    else if b = 'o' then some 'ò' else if b = 'u' then some 'ù' else none
  else if m = '́' then
    if b = 'a' then some 'á' else if b = 'e' then some 'é' else if b = 'i' then some 'í'
    else if b = 'o' then some 'ó' else if b = 'u' then some 'ú' else none
  else if m = '̂' then
    if b = 'a' then some 'â' else if b = 'e' then some 'ê' else if b = 'i' then some 'î'
    else if b = 'o' then some 'ô' else if b = 'u' then some 'û' else none
  else if m = '̈' then
    if b = 'a' then some 'ä' else if b = 'e' then some 'ë' else if b = 'i' then some 'ï'
    else if b = 'o' then some 'ö' else if b = 'u' then some 'ü' else if b = 'h' then some 'ḧ'
    else none
  else if m = '̧' then
    if b = 'c' then some 'ç' else none
  else none

/-- Composition pass: `p` is the previous (pending) output character. -/
def nfcGo (p : Char) : List Char → List Char
  | [] => [p]
  | c :: rest =>
    match compose p c with
    | some comp => nfcGo comp rest
    | none => p :: nfcGo c rest

/-- Composition pass over a character list. -/
def nfcCore : List Char → List Char
  | [] => []
  | c :: rest => nfcGo c rest

/-- Model of `unicodedata.normalize("NFC", s)`. -/
def nfc (s : String) : String :=
  ⟨nfcCore s.data⟩

/-! ### Data model

A `Field` models a `pymarc` field: a tag, an ordered list of
(subfield-code, value) pairs, and — for control fields such as 001 —
the raw `data` payload.  A `SourceRecord` is the ordered field list of
one parsed MARCXML record. -/

structure Field where
  tag : String
  subfields : List (String × String)
  data : String
  deriving DecidableEq, Repr

abbrev SourceRecord := List Field

/-- `pymarc` `field.get_subfields(codes...)`: values of the matching
subfields, in field order. -/
def getSubfields (f : Field) (codes : List String) : List String :=
  (f.subfields.filter (fun p => codes.contains p.1)).map (fun p => p.2)

/-- Model of `pymarc`'s `str(field)` for a control field, as used in the
tag-001 branch: `=TAG  data` with spaces of the payload shown as `\`. -/
def fieldStr (g : Field) : String :=
  "=" ++ g.tag ++ "  " ++ pyReplace g.data " " "\\"

/-- An output line `"<tag>  - <value>"` (the script's f-strings). -/
def risLine (t v : String) : String :=
  t ++ "  - " ++ v

/-! ### Stage 1: the field mapper (per-tag `elif` dispatch) -/

/-- Translation of the per-field `elif` chain of the first pass.  The
record is passed along because the tag-001 branch reads
`record.get_fields(tag)`.  The second `tag in ['260']` test is kept
exactly where the source has it (after the first one, hence dead). -/
def mapField (rec : SourceRecord) (f : Field) : List String :=
  if f.tag = "245" then
    [risLine "TI" (pyRstrip (pyStripCh (String.intercalate " " (getSubfields f ["a", "b"])) [' ', '/']) ['.'])]
  else if f.tag = "880" then
    let title := pyStripCh (String.intercalate " " (getSubfields f ["a", "b"])) [' ', '/']
    let link := getSubfields f ["6"]
    if (match link with
        | [] => false
        | l0 :: _ => pyStarts l0 "500" || pyStarts l0 "520") then
      (getSubfields f ["a"]).map (fun sn => risLine "AB" sn)
    else
      [risLine "TI" (pyRstrip title ['.'])]
  else if f.tag = "100" then
    (getSubfields f ["a"]).map (fun a => risLine "AU" (pyRstrip (pyRstrip a [',']) ['.']))
  else if f.tag = "700" then
    (getSubfields f ["a"]).map (fun a => risLine "A3" (pyRstrip (pyRstrip a [',']) ['.']))
  else if f.tag = "650" then
    (getSubfields f ["a"]).map (fun kw => risLine "KW" (pyRstrip kw ['.']))
  else if f.tag = "020" ∨ f.tag = "022" then
    (getSubfields f ["a"]).map (fun sn => risLine "SN" sn)
  else if f.tag = "260" then
    (getSubfields f ["c"]).map (fun sn => risLine "DA" (pyRstrip sn ['.']))
  else if f.tag = "260" then
    (getSubfields f ["a"]).map (fun sn => risLine "CY" sn)
  else if f.tag = "502" then
    (getSubfields f ["a"]).map (fun sn => risLine "M3" (pyRstrip (pyReplace sn "\"" "") ['.'])) ++
    (getSubfields f ["d"]).map (fun sm => risLine "DA" (pyRstrip (pyRstrip (pyRstrip sm [' ']) ['.']) [':']))
  else if f.tag = "500" then
    (getSubfields f ["a"]).map (fun sn => risLine "AN" (pyRstrip (pyReplace sn "\"" "") ['.'])) ++
    (getSubfields f ["d"]).map (fun sm => risLine "DA" (pyRstrip (pyRstrip (pyRstrip sm [' ']) ['.']) [':']))
  else if f.tag = "490" then
    (getSubfields f ["a"]).map (fun sn => risLine "M3" (pyRstrip (pyReplace sn "\"" "") ['.']))
  else if f.tag = "999" then
    (getSubfields f ["a"]).map (fun sn => risLine "UR" sn)
  else if f.tag = "852" then
    (getSubfields f ["h"]).map (fun sn => risLine "CN" sn)
  else if f.tag = "001" then
    (rec.filter (fun g => g.tag = "001")).map (fun g => risLine "ID" (pyReplace (fieldStr g) "=001  " ""))
  else if f.tag = "300" then
    (getSubfields f ["a"]).map (fun sn =>
      let sn1 := pyRstrip (pyRstrip sn [':']) ['+']
      risLine "SP" (if pyIn "ressource" sn1 then "" else sn1))
  else if f.tag = "041" then
    (getSubfields f ["a"]).flatMap (fun sn =>
      (if pyIn "fre" sn then ["LA  - Français"] else []) ++
      (if pyIn "eng" sn then ["LA  - Anglais"] else []))
  else if f.tag = "040" then
    (getSubfields f ["b"]).flatMap (fun sn =>
      (if pyIn "fre" sn then ["LA  - Français"] else []) ++
      (if pyIn "eng" sn then ["LA  - Anglais"] else []))
  else if f.tag = "520" then
    (getSubfields f ["a"]).map (fun sn => risLine "AB" sn)
  else if f.tag = "586" then
    (getSubfields f ["u"]).map (fun sn => risLine "UR" sn)
  else
    []

/-- The unconditionally appended place line. -/
def cyConst : String := "CY  - Montréal"

/-- The unconditionally appended publisher line. -/
def pbConst : String := "PB  - Université de Montréal"

/-- All mapper output for one record except the `TY` header and the
`ER` terminator: the per-field lines followed by the constant
place/publisher pair. -/
def coreEntries (src : SourceRecord) : List String :=
  src.flatMap (fun f => mapField src f) ++ [cyConst, pbConst]

/-- The full `ris_entries` list built for one record, ending with the
`"ER  - \n"` entry exactly as in the source (note the embedded newline). -/
def risEntries (src : SourceRecord) : List String :=
  "TY  - THES" :: coreEntries src ++ ["ER  - \n"]

/-! ### The intermediate file -/

/-- `strip_end_spaces` from the script. -/
def strip_end_spaces (lignes : List String) : List String :=
  lignes.map pyRstripWs

/-- Adjacent-duplicate removal, the keys of `itertools.groupby`. -/
def dedupConsec : List String → List String
  | [] => []
  | [a] => [a]
  | a :: b :: rest => if a = b then dedupConsec (b :: rest) else a :: dedupConsec (b :: rest)

/-- `remove_consecutive_duplicates` from the script. -/
def remove_consecutive_duplicates (lignes : List String) : List String :=
  dedupConsec lignes

/-- The text the first pass writes for one entries list: the source calls
`strip_end_spaces` and `remove_consecutive_duplicates`, discards both
results, and writes `"\n".join(ris_entries) + "\n"`. -/
def writeRecordEntries (entries : List String) : String :=
  let _stripped := strip_end_spaces entries
  let _deduped := remove_consecutive_duplicates entries
  joinNL entries ++ "\n"

/-- The same write with the two discarded calls removed. -/
def writeRecordEntriesDirect (entries : List String) : String :=
  joinNL entries ++ "\n"

/-- Text written to `temporary.ris` for one source record. -/
def writeRecord (src : SourceRecord) : String :=
  writeRecordEntries (risEntries src)

/-- Sequential `f.write` calls: the file is the concatenation of the
written chunks. -/
def concatTexts : List String → String
  | [] => ""
  | a :: rest => a ++ concatTexts rest

/-- The whole content of `temporary.ris`. -/
def intermediateText (srcs : List SourceRecord) : String :=
  concatTexts (srcs.map writeRecord)

/-! ### Reading a file back line by line

`[line.rstrip("\n") for line in f]`: Python yields maximal chunks ending
in a newline (plus a final chunk without one, if any) and the `rstrip`
removes the single trailing newline of each.  Equivalently: split the
content at every `'\n'` and drop the final empty segment produced when
the content ends with a newline. -/

def splitNL : List Char → List (List Char)
  | [] => []
  | c :: rest =>
    if c = '\n' then [] :: splitNL rest
    else
      match splitNL rest with
      | [] => [[c]]
      | l :: ls => (c :: l) :: ls

/-- The list of lines read back from file content `s`. -/
def readLines (s : String) : List String :=
  (splitNL s.data).map (fun l => ⟨l⟩)

/-! ### Stage 2: record splitter -/

/-- `line.strip().startswith("TY  -")`. -/
def isTYline (l : String) : Bool :=
  pyStarts (pyStrip l) "TY  -"

/-- `line.strip().startswith("ER  -")`. -/
def isERline (l : String) : Bool :=
  pyStarts (pyStrip l) "ER  -"

/-- One step of the record-splitting loop; the state is
`(records, current)`. -/
def splitStep (st : List (List String) × List String) (line : String) :
    List (List String) × List String :=
  if isTYline line then
    (if st.2.isEmpty then st.1 else st.1 ++ [st.2], [line])
  else if isERline line then
    (st.1 ++ [st.2 ++ [line]], [])
  else
    (st.1, st.2 ++ [line])

/-- The record splitter: fold the loop over all lines; whatever remains
in `current` at the end is never appended (as in the source). -/
def splitRIS (lines : List String) : List (List String) :=
  (lines.foldl splitStep ([], [])).1

/-! ### Stage 2: per-record cleaning -/

/-- Lexicographic code-point comparison of character lists (Python's
string `<`). -/
def ltChars : List Char → List Char → Bool
  | _, [] => false
  | [], _ :: _ => true
  | a :: as, b :: bs =>
    if a.toNat < b.toNat then true
    else if b.toNat < a.toNat then false
    else ltChars as bs

/-- Python's `<` on strings: lexicographic by code point. -/
def strLt (a b : String) : Bool :=
  ltChars a.data b.data

/-- Sorted-set insertion with respect to the code-point order on
strings (Python's `<`). -/
def insertSorted (a : String) : List String → List String
  | [] => [a]
  | b :: rest =>
    if strLt a b then a :: b :: rest
    else if a = b then b :: rest
    else b :: insertSorted a rest

/-- `sorted(set(l))`: the strictly increasing enumeration of the
distinct elements of `l`. -/
def sortedSet (l : List String) : List String :=
  l.foldr insertSorted []

/-- `line[6:].strip()`: the abstract payload of an `AB` line. -/
def abContent (l : String) : String :=
  pyStrip (strDrop l 6)

/-- A body line the abstract merge extracts: an `AB` line whose payload
has strictly more than 40 whitespace-separated tokens. -/
def isLongAB (l : String) : Bool :=
  pyStarts l "AB  -" && decide (40 < pyWordCount (abContent l))

/-- The merge loop over the sorted body: collects the long-abstract
payloads and the kept lines, in order. -/
def mergeScan : List String → List String × List String
  | [] => ([], [])
  | line :: rest =>
    let p := mergeScan rest
    if isLongAB line then (abContent line :: p.1, p.2)
    else (p.1, line :: p.2)

/-- Abstract merging: drop the long `AB` lines and, when any were found,
append one `AB` line joining their payloads with blank-line separators. -/
def mergeAbstracts (body : List String) : List String :=
  let p := mergeScan body
  if p.1.isEmpty then p.2
  else p.2 ++ [risLine "AB" (String.intercalate "\n\n" p.1)]

/-- Per-record body cleaning: NFC-normalize, deduplicate and sort, then
merge long abstracts. -/
def cleanBody (body : List String) : List String :=
  mergeAbstracts (sortedSet (body.map nfc))

/-- Per-record cleaning: keep the first (`TY`) and last (`ER`) lines
verbatim and clean everything in between. -/
def normalizeRecord : List String → List String
  | [] => []
  | a :: rest => a :: cleanBody rest.dropLast ++ [(a :: rest).getLastD ""]

/-! ### Stage 3: thesis-type canonicalizer -/

/-- Master's-degree prefix list, verbatim (one entry is repeated in the
source). -/
def prefixesMA : List String :=
  ["M3  - Histoire (M. Sc.)",
   "M3  - Histoire (M.A.)",
   "M3  - Maitrise es arts en histoire",
   "M3  - Maîtrise (M.A. Hist.)",
   "M3  - Mémoire (M.A.)",
   "M3  - These (M.A.)",
   "M3  - Thèse (D.E.S.",
   "M3  - Thèse (M. A.)",
   "M3  - Thèse (M. Sc.)",
   "M3  - Thèse (M.A.",
   "M3  - Thèse (de maîtrise",
   "M3  - Thèse. (M.A.)",
   "M3  - Thèse. (M.A.)",
   "M3  - Tḧse (M.A.)"]

/-- Doctoral-degree prefix list, verbatim. -/
def prefixesPHD : List String :=
  ["M3  - Histoire (Ph. D.)",
   "M3  - Thèse (D. ès L.)",
   "M3  - Thèse (D.L.)",
   "M3  - Thèse (Ph. D.",
   "M3  - Thèse (Ph.D.",
   "M3  - Thèse présentée pour l'obtention du grade de Docteur en Philosophie (Ph. D.)",
   "M3  - Thèse présentée à la Faculté des études supérieures en vue de l'obtention du grade de Phil"]

/-- Python `line.startswith(tuple)`. -/
def startsAny (pfxs : List String) (s : String) : Bool :=
  pfxs.any (fun p => pyStarts s p)

/-- One line of the third pass: NFC-normalize, then replace a line
matching the Master's list (checked first) or the doctoral list by the
corresponding canonical string.  (The `isinstance(line, list)` guard of
the source is dead here: lines are always strings.) -/
def canonLine (line : String) : String :=
  let l := nfc line
  if startsAny prefixesMA l then "M3  - Mémoire de maîtrise (M.A.)"
  else if startsAny prefixesPHD l then "M3  - Thèse de doctorat (Ph.D.)"
  else l

/-! ### The assembled pipeline -/

/-- The lines of one record as they sit in the intermediate file (when
no entry contains an embedded newline): header, core entries, `ER` line
with its trailing space. -/
def linesOfRecord (src : SourceRecord) : List String :=
  "TY  - THES" :: coreEntries src ++ ["ER  - "]

/-- `records`: split the re-read intermediate file. -/
def splitRecords (srcs : List SourceRecord) : List (List String) :=
  splitRIS (readLines (intermediateText srcs))

/-- `processed_records`: skip empty records, clean the rest. -/
def processedRecords (srcs : List SourceRecord) : List (List String) :=
  (splitRecords srcs |>.filter (fun r => !r.isEmpty)).map normalizeRecord

/-- `final_records`: canonicalize every line of every record. -/
def finalRecords (srcs : List SourceRecord) : List (List String) :=
  (processedRecords srcs).map (fun r => r.map canonLine)

/-- The whole content of `export_2_zotero.ris`: every line followed by a
newline, plus one newline after each record. -/
def finalText (srcs : List SourceRecord) : String :=
  concatTexts ((finalRecords srcs).map
    (fun r => concatTexts (r.map (fun l => l ++ "\n")) ++ "\n"))

/-- The complete per-record transformation (stages 2 and 3) applied to a
well-formed record of the intermediate file. -/
def processOne (src : SourceRecord) : List String :=
  (normalizeRecord (linesOfRecord src)).map canonLine

/-- Does a record start with a `TY` line (the shape of a real record, as
opposed to the spurious records the splitter makes from blank lines)? -/
def headIsTY : List String → Bool
  | [] => false
  | l :: _ => pyStarts l "TY  -"

/-- No embedded newline: the string is a single line. -/
def noNL (s : String) : Bool :=
  decide ('\n' ∉ s.data)

/-- Every mapper entry of every record is a single line (the spec's
`OutputLine` well-formedness; violated only by source subfield values
that themselves contain newlines). -/
abbrev IntermediateOk (srcs : List SourceRecord) : Prop :=
  ∀ src ∈ srcs, ∀ e ∈ coreEntries src, noNL e = true

/-- No record yields a long abstract (payload of more than 40 tokens). -/
abbrev NoLongAbstracts (srcs : List SourceRecord) : Prop :=
  ∀ src ∈ srcs, ∀ l ∈ sortedSet ((coreEntries src).map nfc), isLongAB l = false

/-! ### Tag vocabularies and concrete inputs used by the claims -/

/-- The two-letter tags the per-field dispatch can emit. -/
def fieldTags : List String :=
  ["TI", "AB", "AU", "A3", "KW", "SN", "DA", "M3", "AN", "UR", "CN", "ID", "SP", "LA"]

/-- Tags that can occur in a record body (mapper tags plus the appended
constants). -/
def bodyTags : List String :=
  "CY" :: "PB" :: fieldTags

/-- A concrete two-record input used by witnesses: two field-less records. -/
def demoSrcs : List SourceRecord := [[], []]

/-- A 41-word abstract line made of copies of one word. -/
def longAB (c : String) : String :=
  risLine "AB" (String.intercalate " " (List.replicate 41 c))

/-- A record body holding two distinct long abstracts. -/
def c4body : List String := [longAB "a", longAB "b"]

/-- The tags the dispatch chain handles. -/
def mappedTags : List String :=
  ["245", "880", "100", "700", "650", "020", "022", "260", "502", "500", "490",
   "999", "852", "001", "300", "041", "040", "520", "586"]

/-- The mapped tags whose rules read sub-fields of the field itself
(everything except the title rules 245/880 and the control-number rule 001). -/
def subfieldRuleTags : List String :=
  ["100", "700", "650", "020", "022", "260", "502", "500", "490",
   "999", "852", "300", "041", "040", "520", "586"]

/-- The sub-field codes each sub-field rule reads. -/
def expectedCodes : String → List String
  | "100" => ["a"]
  | "700" => ["a"]
  | "650" => ["a"]
  | "020" => ["a"]
  | "022" => ["a"]
  | "260" => ["c"]
  | "502" => ["a", "d"]
  | "500" => ["a", "d"]
  | "490" => ["a"]
  | "999" => ["a"]
  | "852" => ["h"]
  | "300" => ["a"]
  | "041" => ["a"]
  | "040" => ["b"]
  | "520" => ["a"]
  | "586" => ["u"]
  | _ => []

/-! ### Basic string lemmas -/

lemma strData_append (a b : String) : (a ++ b).data = a.data ++ b.data := by
  cases a; cases b; rfl

lemma strEta (s : String) : String.mk s.data = s := by
  cases s; rfl

lemma startsL_iff {p l : List Char} : startsL p l = true ↔ ∃ t, l = p ++ t := by
  induction p generalizing l with
  | nil => simp [startsL]
  | cons a ps ih =>
    cases l with
    | nil => simp [startsL]
    | cons c cs =>
      simp only [startsL, Bool.and_eq_true, decide_eq_true_eq, ih, List.cons_append,
        List.cons.injEq]
      constructor
      · rintro ⟨rfl, t, rfl⟩; exact ⟨t, rfl, rfl⟩
      · rintro ⟨t, rfl, rfl⟩; exact ⟨rfl, t, rfl⟩

lemma rstripL_eq_append (p : Char → Bool) (l : List Char) :
    ∃ t, l = rstripL p l ++ t := by
  refine ⟨(l.reverse.takeWhile p).reverse, ?_⟩
  unfold rstripL
  rw [← List.reverse_append, List.takeWhile_append_dropWhile, List.reverse_reverse]

lemma strip_starts_false (c1 c2 : Char) (w : List Char) (p1 p2 : Char) (pr : List Char)
    (h1 : isWs c1 = false) (hne : ¬(p1 = c1 ∧ p2 = c2)) :
    startsL (p1 :: p2 :: pr) (rstripL isWs (lstripL isWs (c1 :: c2 :: w))) = false := by
  have hl : lstripL isWs (c1 :: c2 :: w) = c1 :: c2 :: w := by
    unfold lstripL
    rw [List.dropWhile_cons_of_neg (by simp [h1])]
  rw [hl]
  refine Bool.eq_false_iff.mpr fun hb => hne ?_
  obtain ⟨t, ht⟩ := startsL_iff.mp hb
  obtain ⟨t2, ht2⟩ := rstripL_eq_append isWs (c1 :: c2 :: w)
  rw [ht] at ht2
  simp only [List.cons_append, List.cons.injEq] at ht2
  exact ⟨ht2.1.symm, ht2.2.1.symm⟩

/-! ### Lemmas about the NFC model -/

lemma compose_eq_none_of_not_base {b : Char} (m : Char) (h : isBase b = false) :
    compose b m = none := by
  simp only [isBase, Bool.or_eq_false_iff, decide_eq_false_iff_not] at h
  obtain ⟨⟨⟨⟨⟨⟨ha, he⟩, hi⟩, ho⟩, hu⟩, hc⟩, hh⟩ := h
  simp [compose, ha, he, hi, ho, hu, hc, hh]

lemma compose_eq_none_of_not_mark (b : Char) {m : Char} (h : isMark m = false) :
    compose b m = none := by
  simp only [isMark, Bool.or_eq_false_iff, decide_eq_false_iff_not] at h
  obtain ⟨⟨⟨⟨h1, h2⟩, h3⟩, h4⟩, h5⟩ := h
  simp [compose, h1, h2, h3, h4, h5]

lemma compose_some_ne_newline {b m x : Char} (h : compose b m = some x) : x ≠ '\n' := by
  by_cases hb : isBase b = true
  case neg =>
    rw [compose_eq_none_of_not_base m (Bool.eq_false_iff.mpr hb)] at h
    exact absurd h (by simp)
  by_cases hm : isMark m = true
  case neg =>
    rw [compose_eq_none_of_not_mark b (Bool.eq_false_iff.mpr hm)] at h
    exact absurd h (by simp)
  simp only [isBase, Bool.or_eq_true, decide_eq_true_eq] at hb
  simp only [isMark, Bool.or_eq_true, decide_eq_true_eq] at hm
  rcases hb with ((((((rfl | rfl) | rfl) | rfl) | rfl) | rfl) | rfl) <;>
    rcases hm with ((((rfl | rfl) | rfl) | rfl) | rfl) <;>
    ((simp [compose] at h) <;> (subst h; decide))

lemma nfcGo_of_notBase {p : Char} (h : isBase p = false) (l : List Char) :
    nfcGo p l = p :: nfcCore l := by
  cases l with
  | nil => rfl
  | cons c rest =>
    show (match compose p c with
      | some comp => nfcGo comp rest
      | none => p :: nfcGo c rest) = _
    rw [compose_eq_none_of_not_base c h]
    rfl

lemma nfcCore_append_notBase (t r : List Char) (h : ∀ c ∈ t, isBase c = false) :
    nfcCore (t ++ r) = t ++ nfcCore r := by
  induction t with
  | nil => simp
  | cons c t' ih =>
    have hc := h c (by simp)
    have ih' := ih (fun x hx => h x (by simp [hx]))
    simp only [List.cons_append]
    rw [show nfcCore (c :: (t' ++ r)) = nfcGo c (t' ++ r) from rfl,
      nfcGo_of_notBase hc, ih']

lemma nfcGo_noMarks (p : Char) (l : List Char) (h : ∀ c ∈ l, isMark c = false) :
    nfcGo p l = p :: l := by
  induction l generalizing p with
  | nil => rfl
  | cons c rest ih =>
    show (match compose p c with
      | some comp => nfcGo comp rest
      | none => p :: nfcGo c rest) = _
    rw [compose_eq_none_of_not_mark p (h c (by simp))]
    rw [ih c (fun x hx => h x (by simp [hx]))]

lemma nfcCore_noMarks (l : List Char) (h : ∀ c ∈ l, isMark c = false) :
    nfcCore l = l := by
  cases l with
  | nil => rfl
  | cons c rest =>
    show nfcGo c rest = _
    rw [nfcGo_noMarks c rest (fun x hx => h x (by simp [hx]))]

lemma nfc_id_of_noMarks (s : String) (h : ∀ c ∈ s.data, isMark c = false) :
    nfc s = s := by
  unfold nfc
  rw [nfcCore_noMarks s.data h, strEta]

lemma newline_mem_nfcGo {p : Char} {l : List Char} (h : '\n' ∈ nfcGo p l) :
    '\n' = p ∨ '\n' ∈ l := by
  induction l generalizing p with
  | nil => simpa [nfcGo] using h
  | cons c rest ih =>
    rw [show nfcGo p (c :: rest) = (match compose p c with
      | some comp => nfcGo comp rest
      | none => p :: nfcGo c rest) from rfl] at h
    cases hc : compose p c with
    | some comp =>
      rw [hc] at h
      rcases ih h with h | h
      · exact absurd h.symm (compose_some_ne_newline hc)
      · exact Or.inr (List.mem_cons_of_mem _ h)
    | none =>
      rw [hc] at h
      rcases List.mem_cons.mp h with h | h
      · exact Or.inl h
      · rcases ih h with h | h
        · exact Or.inr (by simp [← h])
        · exact Or.inr (List.mem_cons_of_mem _ h)

lemma noNL_nfc (s : String) (h : noNL s = true) : noNL (nfc s) = true := by
  simp only [noNL, decide_eq_true_eq] at *
  intro hmem
  unfold nfc at hmem
  rw [strEta] at *
  cases hd : s.data with
  | nil => rw [hd] at hmem; exact absurd hmem (by simp [nfcCore])
  | cons c rest =>
    rw [hd] at hmem h
    rcases newline_mem_nfcGo (by simpa [nfcCore] using hmem) with h2 | h2
    · exact h (by simp [← h2])
    · exact h (List.mem_cons_of_mem _ h2)

lemma nfc_risLine (t v : String) (hB : ∀ c ∈ (t ++ "  - ").data, isBase c = false) :
    nfc (risLine t v) = risLine t (nfc v) := by
  have h1 : (risLine t v).data = (t ++ "  - ").data ++ v.data := by
    simp [risLine, strData_append]
  have h2 : (risLine t (nfc v)).data = (t ++ "  - ").data ++ (nfc v).data := by
    simp [risLine, strData_append]
  apply String.ext
  rw [show (nfc (risLine t v)).data = nfcCore (risLine t v).data from rfl, h1, h2,
    nfcCore_append_notBase _ _ hB]
  rfl

/-! ### Lemmas about file writing and reading -/

lemma splitNL_line (l rest : List Char) (h : '\n' ∉ l) :
    splitNL (l ++ '\n' :: rest) = l :: splitNL rest := by
  induction l with
  | nil => simp [splitNL]
  | cons c l' ih =>
    have hc : ¬(c = '\n') := fun hc => h (by simp [hc])
    have ih' := ih (fun hm => h (List.mem_cons_of_mem _ hm))
    simp only [List.cons_append]
    rw [show splitNL (c :: (l' ++ '\n' :: rest)) =
      (if c = '\n' then [] :: splitNL (l' ++ '\n' :: rest)
       else match splitNL (l' ++ '\n' :: rest) with
         | [] => [[c]]
         | l :: ls => (c :: l) :: ls) from rfl]
    rw [if_neg hc, ih']

lemma splitNL_blocks (ls : List String) (rest : List Char) (h : ∀ l ∈ ls, noNL l = true) :
    splitNL ((ls.map (fun l => l.data ++ ['\n'])).flatten ++ rest) =
      ls.map String.data ++ splitNL rest := by
  induction ls with
  | nil => simp
  | cons a ls' ih =>
    have ha : '\n' ∉ a.data := by
      have := h a (by simp)
      simpa [noNL] using this
    have ih' := ih (fun l hl => h l (by simp [hl]))
    simp only [List.map_cons, List.flatten_cons, List.append_assoc, List.singleton_append,
      List.cons_append]
    rw [splitNL_line _ _ ha]
    simp [ih']

lemma concatTexts_data (ls : List String) :
    (concatTexts ls).data = (ls.map String.data).flatten := by
  induction ls with
  | nil => rfl
  | cons a rest ih => simp [concatTexts, strData_append, ih]

lemma joinNL_append_last (ls : List String) (last : String) :
    (joinNL (ls ++ [last])).data =
      (ls.map (fun l => l.data ++ ['\n'])).flatten ++ last.data := by
  induction ls with
  | nil => simp [joinNL]
  | cons a ls' ih =>
    cases ls' with
    | nil => simp [joinNL, strData_append]
    | cons b ls'' =>
      simp only [List.cons_append] at *
      rw [show joinNL (a :: b :: (ls'' ++ [last])) =
        a ++ "\n" ++ joinNL (b :: (ls'' ++ [last])) from rfl]
      simp [strData_append, ih]

lemma writeRecord_data (src : SourceRecord) :
    (writeRecord src).data =
      ((linesOfRecord src ++ [""]).map (fun l => l.data ++ ['\n'])).flatten := by
  show (joinNL (risEntries src) ++ "\n").data = _
  rw [strData_append,
    show risEntries src = ("TY  - THES" :: coreEntries src) ++ ["ER  - \n"] from rfl,
    joinNL_append_last,
    show linesOfRecord src ++ [""] = ("TY  - THES" :: coreEntries src) ++ ["ER  - ", ""]
      from by simp [linesOfRecord]]
  have h1 : ("ER  - \n" : String).data = ("ER  - " : String).data ++ ['\n'] := rfl
  have h2 : ("\n" : String).data = ['\n'] := rfl
  have h3 : ("" : String).data = [] := rfl
  simp [h1, h2, h3]

lemma intermediateText_data (srcs : List SourceRecord) :
    (intermediateText srcs).data =
      ((srcs.flatMap (fun s => linesOfRecord s ++ [""])).map (fun l => l.data ++ ['\n'])).flatten := by
  induction srcs with
  | nil => rfl
  | cons s rest ih =>
    show (writeRecord s ++ intermediateText rest).data = _
    rw [strData_append, writeRecord_data, ih]
    simp

lemma readLines_intermediate (srcs : List SourceRecord) (h : IntermediateOk srcs) :
    readLines (intermediateText srcs) = srcs.flatMap (fun s => linesOfRecord s ++ [""]) := by
  unfold readLines
  rw [intermediateText_data]
  have hnl : ∀ l ∈ srcs.flatMap (fun s => linesOfRecord s ++ [""]), noNL l = true := by
    intro l hl
    rw [List.mem_flatMap] at hl
    obtain ⟨s, hs, hl⟩ := hl
    rw [List.mem_append] at hl
    rcases hl with hl | hl
    · unfold linesOfRecord at hl
      rcases List.mem_cons.mp hl with rfl | hl
      · decide
      rcases List.mem_append.mp hl with hl | hl
      · exact h s hs l hl
      · simp only [List.mem_singleton] at hl
        subst hl
        decide
    · simp only [List.mem_singleton] at hl
      subst hl
      decide
  have hb := splitNL_blocks (srcs.flatMap (fun s => linesOfRecord s ++ [""])) [] hnl
  rw [List.append_nil] at hb
  rw [hb, show splitNL [] = [] from rfl, List.append_nil, List.map_map]
  simp [Function.comp_def, strEta]

/-! ### Shape of the mapper's output lines -/

lemma mem_lang {e : String} {l : List String}
    (he : e ∈ l.flatMap (fun sn =>
      (if pyIn "fre" sn then ["LA  - Français"] else []) ++
      (if pyIn "eng" sn then ["LA  - Anglais"] else []))) :
    e = "LA  - Français" ∨ e = "LA  - Anglais" := by
  rw [List.mem_flatMap] at he
  obtain ⟨sn, -, he⟩ := he
  rw [List.mem_append] at he
  rcases he with he | he
  · by_cases hf : pyIn "fre" sn = true
    · rw [if_pos hf, List.mem_singleton] at he
      exact Or.inl he
    · rw [if_neg hf] at he
      exact absurd he (List.not_mem_nil e)
  · by_cases hf : pyIn "eng" sn = true
    · rw [if_pos hf, List.mem_singleton] at he
      exact Or.inr he
    · rw [if_neg hf] at he
      exact absurd he (List.not_mem_nil e)

set_option maxHeartbeats 2000000 in
lemma mapField_shape (rec : SourceRecord) (f : Field) :
    ∀ e ∈ mapField rec f, ∃ t v, t ∈ fieldTags ∧ e = risLine t v := by
  intro e he
  unfold mapField at he
  by_cases h1 : f.tag = "245"
  · rw [if_pos h1, List.mem_singleton] at he
    exact ⟨"TI", _, by decide, he⟩
  rw [if_neg h1] at he
  by_cases h2 : f.tag = "880"
  · rw [if_pos h2] at he
    dsimp only at he
    split at he
    · obtain ⟨x, -, rfl⟩ := List.mem_map.mp he
      exact ⟨"AB", _, by decide, rfl⟩
    · rw [List.mem_singleton] at he
      exact ⟨"TI", _, by decide, he⟩
  rw [if_neg h2] at he
  by_cases h3 : f.tag = "100"
  · rw [if_pos h3] at he
    obtain ⟨x, -, rfl⟩ := List.mem_map.mp he
    exact ⟨"AU", _, by decide, rfl⟩
  rw [if_neg h3] at he
  by_cases h4 : f.tag = "700"
  · rw [if_pos h4] at he
    obtain ⟨x, -, rfl⟩ := List.mem_map.mp he
    exact ⟨"A3", _, by decide, rfl⟩
  rw [if_neg h4] at he
  by_cases h5 : f.tag = "650"
  · rw [if_pos h5] at he
    obtain ⟨x, -, rfl⟩ := List.mem_map.mp he
    exact ⟨"KW", _, by decide, rfl⟩
  rw [if_neg h5] at he
  by_cases h6 : f.tag = "020" ∨ f.tag = "022"
  · rw [if_pos h6] at he
    obtain ⟨x, -, rfl⟩ := List.mem_map.mp he
    exact ⟨"SN", _, by decide, rfl⟩
  rw [if_neg h6] at he
  by_cases h7 : f.tag = "260"
  · rw [if_pos h7] at he
    obtain ⟨x, -, rfl⟩ := List.mem_map.mp he
    exact ⟨"DA", _, by decide, rfl⟩
  rw [if_neg h7, if_neg h7] at he
  by_cases h8 : f.tag = "502"
  · rw [if_pos h8] at he
    rcases List.mem_append.mp he with he2 | he2
    · obtain ⟨x, -, rfl⟩ := List.mem_map.mp he2
      exact ⟨"M3", _, by decide, rfl⟩
    · obtain ⟨x, -, rfl⟩ := List.mem_map.mp he2
      exact ⟨"DA", _, by decide, rfl⟩
  rw [if_neg h8] at he
  by_cases h9 : f.tag = "500"
  · rw [if_pos h9] at he
    rcases List.mem_append.mp he with he2 | he2
    · obtain ⟨x, -, rfl⟩ := List.mem_map.mp he2
      exact ⟨"AN", _, by decide, rfl⟩
    · obtain ⟨x, -, rfl⟩ := List.mem_map.mp he2
      exact ⟨"DA", _, by decide, rfl⟩
  rw [if_neg h9] at he
  by_cases h10 : f.tag = "490"
  · rw [if_pos h10] at he
    obtain ⟨x, -, rfl⟩ := List.mem_map.mp he
    exact ⟨"M3", _, by decide, rfl⟩
  rw [if_neg h10] at he
  by_cases h11 : f.tag = "999"
  · rw [if_pos h11] at he
    obtain ⟨x, -, rfl⟩ := List.mem_map.mp he
    exact ⟨"UR", _, by decide, rfl⟩
  rw [if_neg h11] at he
  by_cases h12 : f.tag = "852"
  · rw [if_pos h12] at he
    obtain ⟨x, -, rfl⟩ := List.mem_map.mp he
    exact ⟨"CN", _, by decide, rfl⟩
  rw [if_neg h12] at he
  by_cases h13 : f.tag = "001"
  · rw [if_pos h13] at he
    obtain ⟨x, -, rfl⟩ := List.mem_map.mp he
    exact ⟨"ID", _, by decide, rfl⟩
  rw [if_neg h13] at he
  by_cases h14 : f.tag = "300"
  · rw [if_pos h14] at he
    obtain ⟨x, -, rfl⟩ := List.mem_map.mp he
    exact ⟨"SP", _, by decide, rfl⟩
  rw [if_neg h14] at he
  by_cases h15 : f.tag = "041"
  · rw [if_pos h15] at he
    rcases mem_lang he with rfl | rfl
    · exact ⟨"LA", "Français", by decide, by decide⟩
    · exact ⟨"LA", "Anglais", by decide, by decide⟩
  rw [if_neg h15] at he
  by_cases h16 : f.tag = "040"
  · rw [if_pos h16] at he
    rcases mem_lang he with rfl | rfl
    · exact ⟨"LA", "Français", by decide, by decide⟩
    · exact ⟨"LA", "Anglais", by decide, by decide⟩
  rw [if_neg h16] at he
  by_cases h17 : f.tag = "520"
  · rw [if_pos h17] at he
    obtain ⟨x, -, rfl⟩ := List.mem_map.mp he
    exact ⟨"AB", _, by decide, rfl⟩
  rw [if_neg h17] at he
  by_cases h18 : f.tag = "586"
  · rw [if_pos h18] at he
    obtain ⟨x, -, rfl⟩ := List.mem_map.mp he
    exact ⟨"UR", _, by decide, rfl⟩
  rw [if_neg h18] at he
  exact absurd he (List.not_mem_nil e)

/-! ### The splitter never mistakes a body line for `TY`/`ER` -/

lemma risLine_not_TYER (t v : String) (c1 c2 : Char) (ht : t.data = [c1, c2])
    (hw : isWs c1 = false) (hTY : ¬('T' = c1 ∧ 'Y' = c2)) (hER : ¬('E' = c1 ∧ 'R' = c2)) :
    isTYline (risLine t v) = false ∧ isERline (risLine t v) = false := by
  have hsep : ("  - " : String).data = [' ', ' ', '-', ' '] := rfl
  have hd : (risLine t v).data = c1 :: c2 :: ([' ', ' ', '-', ' '] ++ v.data) := by
    simp [risLine, strData_append, ht, hsep]
  constructor
  · show startsL ("TY  -" : String).data
      (rstripL isWs (lstripL isWs (risLine t v).data)) = false
    rw [hd]
    exact strip_starts_false c1 c2 _ 'T' 'Y' _ hw hTY
  · show startsL ("ER  -" : String).data
      (rstripL isWs (lstripL isWs (risLine t v).data)) = false
    rw [hd]
    exact strip_starts_false c1 c2 _ 'E' 'R' _ hw hER

lemma coreEntries_not_TYER (src : SourceRecord) :
    ∀ e ∈ coreEntries src, isTYline e = false ∧ isERline e = false := by
  intro e he
  unfold coreEntries at he
  rw [List.mem_append] at he
  rcases he with he | he
  · rw [List.mem_flatMap] at he
    obtain ⟨f, hf, he⟩ := he
    obtain ⟨t, v, ht, rfl⟩ := mapField_shape src f e he
    fin_cases ht <;>
      exact risLine_not_TYER _ _ _ _ rfl (by decide) (by decide) (by decide)
  · simp only [List.mem_cons, List.mem_singleton, List.not_mem_nil, or_false] at he
    rcases he with rfl | rfl <;> exact ⟨by decide, by decide⟩

/-! ### Behaviour of the record splitter -/

lemma foldl_splitStep_skip (ls : List String) (recs : List (List String)) (cur : List String)
    (h : ∀ l ∈ ls, isTYline l = false ∧ isERline l = false) :
    List.foldl splitStep (recs, cur) ls = (recs, cur ++ ls) := by
  induction ls generalizing cur with
  | nil => simp
  | cons a ls' ih =>
    have ha := h a (by simp)
    rw [List.foldl_cons,
      show splitStep (recs, cur) a = (recs, cur ++ [a]) from by
        unfold splitStep
        rw [show isTYline a = false from ha.1, show isERline a = false from ha.2]
        simp,
      ih _ (fun l hl => h l (by simp [hl]))]
    simp

lemma foldl_splitStep_record (src : SourceRecord) (recs : List (List String))
    (cur : List String) :
    List.foldl splitStep (recs, cur) (linesOfRecord src ++ [""]) =
      ((if cur.isEmpty then recs else recs ++ [cur]) ++ [linesOfRecord src], [""]) := by
  have hcore := coreEntries_not_TYER src
  rw [show linesOfRecord src ++ [""] =
    "TY  - THES" :: (coreEntries src ++ ["ER  - ", ""]) from by simp [linesOfRecord]]
  rw [List.foldl_cons,
    show splitStep (recs, cur) "TY  - THES" =
      ((if cur.isEmpty then recs else recs ++ [cur]), ["TY  - THES"]) from by
      unfold splitStep
      rw [show isTYline "TY  - THES" = true from by decide]
      simp]
  rw [show coreEntries src ++ ["ER  - ", ""] = coreEntries src ++ (["ER  - ", ""]) from rfl,
    List.foldl_append]
  rw [foldl_splitStep_skip (coreEntries src) _ _ hcore]
  rw [show (["ER  - ", ""] : List String) = "ER  - " :: [""] from rfl, List.foldl_cons]
  rw [show splitStep ((if cur.isEmpty then recs else recs ++ [cur]),
        ["TY  - THES"] ++ coreEntries src) "ER  - " =
      ((if cur.isEmpty then recs else recs ++ [cur]) ++
        [("TY  - THES" :: coreEntries src) ++ ["ER  - "]], []) from by
      unfold splitStep
      rw [show isTYline "ER  - " = false from by decide,
        show isERline "ER  - " = true from by decide]
      simp]
  rw [show ([""] : List String) = "" :: [] from rfl, List.foldl_cons,
    show splitStep ((if cur.isEmpty then recs else recs ++ [cur]) ++
        ["TY  - THES" :: coreEntries src ++ ["ER  - "]], []) "" =
      ((if cur.isEmpty then recs else recs ++ [cur]) ++
        ["TY  - THES" :: coreEntries src ++ ["ER  - "]], [""]) from by
      unfold splitStep
      rw [show isTYline "" = false from by decide, show isERline "" = false from by decide]
      simp]
  simp [linesOfRecord]

lemma foldl_splitStep_blocks (srcs : List SourceRecord) (recs : List (List String))
    (cur : List String) :
    (List.foldl splitStep (recs, cur) (srcs.flatMap (fun s => linesOfRecord s ++ [""]))).1 =
      if srcs.isEmpty then recs
      else (if cur.isEmpty then recs else recs ++ [cur]) ++
        List.intersperse [""] (srcs.map linesOfRecord) := by
  induction srcs generalizing recs cur with
  | nil => simp
  | cons s rest ih =>
    rw [List.flatMap_cons, List.foldl_append, foldl_splitStep_record s recs cur, ih]
    cases rest with
    | nil => simp
    | cons r rest' =>
      simp [List.intersperse_cons_cons, List.append_assoc]

lemma splitRecords_eq (srcs : List SourceRecord) (h : IntermediateOk srcs) :
    splitRecords srcs = List.intersperse [""] (srcs.map linesOfRecord) := by
  unfold splitRecords splitRIS
  rw [readLines_intermediate srcs h, foldl_splitStep_blocks srcs [] []]
  cases srcs with
  | nil => rfl
  | cons s rest => simp

/-! ### `sorted(set(...))` lemmas -/

lemma ltChars_irrefl (l : List Char) : ltChars l l = false := by
  induction l with
  | nil => rfl
  | cons c rest ih =>
    unfold ltChars
    rw [if_neg (Nat.lt_irrefl _), if_neg (Nat.lt_irrefl _)]
    exact ih

lemma ltChars_connex : ∀ as bs : List Char,
    ltChars as bs = false → ltChars bs as = false → as = bs := by
  intro as
  induction as with
  | nil =>
    intro bs h1 h2
    cases bs with
    | nil => rfl
    | cons b bs' => exact absurd h1 (by unfold ltChars; decide)
  | cons a as' ih =>
    intro bs h1 h2
    cases bs with
    | nil => exact absurd h2 (by unfold ltChars; decide)
    | cons b bs' =>
      unfold ltChars at h1 h2
      by_cases hab : a.toNat < b.toNat
      · rw [if_pos hab] at h1
        exact absurd h1 (by decide)
      · rw [if_neg hab] at h1
        by_cases hba : b.toNat < a.toNat
        · rw [if_pos hba] at h2
          exact absurd h2 (by decide)
        · rw [if_neg hba] at h1
          rw [if_neg hba, if_neg hab] at h2
          have heq : a.toNat = b.toNat :=
            Nat.le_antisymm (Nat.le_of_not_lt hba) (Nat.le_of_not_lt hab)
          have hchar : a = b := Char.ext (by
            have h3 := heq
            unfold Char.toNat at h3
            exact UInt32.ext h3)
          rw [hchar, ih bs' h1 h2]

lemma ltChars_trans : ∀ as bs cs : List Char,
    ltChars as bs = true → ltChars bs cs = true → ltChars as cs = true := by
  intro as
  induction as with
  | nil =>
    intro bs cs h1 h2
    cases cs with
    | nil =>
      cases bs <;> exact absurd h2 (by unfold ltChars; decide)
    | cons c cs' => rfl
  | cons a as' ih =>
    intro bs cs h1 h2
    cases bs with
    | nil => exact absurd h1 (by unfold ltChars; decide)
    | cons b bs' =>
      cases cs with
      | nil => exact absurd h2 (by unfold ltChars; decide)
      | cons c cs' =>
        unfold ltChars at h1 h2 ⊢
        by_cases hab : a.toNat < b.toNat
        · by_cases hbc : b.toNat < c.toNat
          · rw [if_pos (by omega : a.toNat < c.toNat)]
          · rw [if_neg hbc] at h2
            by_cases hcb : c.toNat < b.toNat
            · rw [if_pos hcb] at h2
              exact absurd h2 (by decide)
            · rw [if_pos (by omega : a.toNat < c.toNat)]
        · rw [if_neg hab] at h1
          by_cases hba : b.toNat < a.toNat
          · rw [if_pos hba] at h1
            exact absurd h1 (by decide)
          · rw [if_neg hba] at h1
            by_cases hbc : b.toNat < c.toNat
            · rw [if_pos (by omega : a.toNat < c.toNat)]
            · rw [if_neg hbc] at h2
              by_cases hcb : c.toNat < b.toNat
              · rw [if_pos hcb] at h2
                exact absurd h2 (by decide)
              · rw [if_neg hcb] at h2
                rw [if_neg (by omega : ¬ a.toNat < c.toNat),
                  if_neg (by omega : ¬ c.toNat < a.toNat)]
                exact ih bs' cs' h1 h2

lemma strLt_irrefl (a : String) : strLt a a = false :=
  ltChars_irrefl a.data

lemma strLt_trans {a b c : String} (h1 : strLt a b = true) (h2 : strLt b c = true) :
    strLt a c = true :=
  ltChars_trans a.data b.data c.data h1 h2

lemma strLt_total {a b : String} (h1 : ¬ strLt a b = true) (h2 : a ≠ b) :
    strLt b a = true := by
  cases hba : strLt b a
  · exact absurd (String.ext (ltChars_connex a.data b.data
      (Bool.eq_false_iff.mpr h1) hba)) h2
  · rfl

lemma strLt_ne {a b : String} (h : strLt a b = true) : a ≠ b := by
  intro hEq
  subst hEq
  rw [strLt_irrefl] at h
  exact absurd h (by decide)

lemma mem_insertSorted {x a : String} {l : List String} :
    x ∈ insertSorted a l ↔ x = a ∨ x ∈ l := by
  induction l with
  | nil => simp [insertSorted]
  | cons b rest ih =>
    unfold insertSorted
    split_ifs with h1 h2
    · simp [List.mem_cons]
    · subst h2
      simp [List.mem_cons]
    · simp only [List.mem_cons, ih]
      tauto

lemma pairwise_insertSorted (a : String) (l : List String)
    (h : l.Pairwise (fun x y => strLt x y = true)) :
    (insertSorted a l).Pairwise (fun x y => strLt x y = true) := by
  induction l with
  | nil => simp [insertSorted]
  | cons b rest ih =>
    rw [List.pairwise_cons] at h
    obtain ⟨hb, hrest⟩ := h
    unfold insertSorted
    split_ifs with h1 h2
    · exact List.Pairwise.cons
        (fun x hx => by
          rcases List.mem_cons.mp hx with rfl | hx
          · exact h1
          · exact strLt_trans h1 (hb x hx))
        (List.Pairwise.cons hb hrest)
    · exact List.Pairwise.cons hb hrest
    · have hba : strLt b a = true := strLt_total h1 h2
      exact List.Pairwise.cons
        (fun x hx => by
          rcases mem_insertSorted.mp hx with rfl | hx
          · exact hba
          · exact hb x hx)
        (ih hrest)

lemma sortedSet_pairwise (l : List String) :
    (sortedSet l).Pairwise (fun x y => strLt x y = true) := by
  induction l with
  | nil => exact List.Pairwise.nil
  | cons a rest ih => exact pairwise_insertSorted a _ ih

lemma mem_sortedSet {x : String} {l : List String} : x ∈ sortedSet l ↔ x ∈ l := by
  induction l with
  | nil => simp [sortedSet]
  | cons a rest ih =>
    show x ∈ insertSorted a (sortedSet rest) ↔ _
    rw [mem_insertSorted, ih]
    simp

lemma sortedSet_nodup (l : List String) : (sortedSet l).Nodup :=
  (sortedSet_pairwise l).imp strLt_ne

/-! ### Abstract-merge lemmas -/

lemma filter_all_true {α : Type} {p : α → Bool} {l : List α}
    (h : ∀ x ∈ l, p x = true) : l.filter p = l := by
  induction l with
  | nil => rfl
  | cons a rest ih =>
    rw [List.filter_cons, if_pos (h a (by simp)), ih (fun x hx => h x (by simp [hx]))]

lemma filter_all_false {α : Type} {p : α → Bool} {l : List α}
    (h : ∀ x ∈ l, p x = false) : l.filter p = [] := by
  induction l with
  | nil => rfl
  | cons a rest ih =>
    rw [List.filter_cons, if_neg (by simp [h a (by simp)])]
    exact ih (fun x hx => h x (by simp [hx]))

lemma mergeScan_eq (body : List String) :
    mergeScan body = ((body.filter isLongAB).map abContent,
      body.filter (fun l => !isLongAB l)) := by
  induction body with
  | nil => rfl
  | cons line rest ih =>
    cases hl : isLongAB line <;> simp [mergeScan, ih, List.filter_cons, hl]

lemma mergeAbstracts_eq (body : List String) :
    mergeAbstracts body = body.filter (fun l => !isLongAB l) ++
      (if body.filter isLongAB = [] then []
       else [risLine "AB" (String.intercalate "\n\n"
         ((body.filter isLongAB).map abContent))]) := by
  unfold mergeAbstracts
  rw [mergeScan_eq]
  by_cases h : body.filter isLongAB = []
  · simp [h]
  · have hne : ((body.filter isLongAB).map abContent).isEmpty = false := by
      simp [List.isEmpty_iff, h]
    simp [hne, h]

lemma mergeAbstracts_of_noLong (body : List String)
    (h : ∀ l ∈ body, isLongAB l = false) :
    mergeAbstracts body = body := by
  rw [mergeAbstracts_eq, filter_all_false h,
    filter_all_true (fun l hl => by simp [h l hl])]
  simp

/-! ### Canonicalizer lemmas -/

lemma startsAny_MA_head {l : String} (h : startsAny prefixesMA l = true) :
    l.data.take 2 = ['M', '3'] := by
  unfold startsAny at h
  rw [List.any_eq_true] at h
  obtain ⟨p, hp, hl⟩ := h
  obtain ⟨t, ht⟩ := startsL_iff.mp hl
  fin_cases hp <;> (rw [ht]; rfl)

lemma startsAny_PHD_head {l : String} (h : startsAny prefixesPHD l = true) :
    l.data.take 2 = ['M', '3'] := by
  unfold startsAny at h
  rw [List.any_eq_true] at h
  obtain ⟨p, hp, hl⟩ := h
  obtain ⟨t, ht⟩ := startsL_iff.mp hl
  fin_cases hp <;> (rw [ht]; rfl)

lemma risLine_take2 (t v : String) (c1 c2 : Char) (ht : t.data = [c1, c2]) :
    (risLine t v).data.take 2 = [c1, c2] := by
  simp [risLine, strData_append, ht]

lemma canonLine_risLine_of_ne_M3 (t v : String) (c1 c2 : Char) (ht : t.data = [c1, c2])
    (hB : ∀ c ∈ (t ++ "  - ").data, isBase c = false)
    (hne : ¬(c1 = 'M' ∧ c2 = '3')) :
    canonLine (risLine t v) = risLine t (nfc v) := by
  unfold canonLine
  rw [nfc_risLine t v hB]
  have hMA : startsAny prefixesMA (risLine t (nfc v)) = false := by
    by_contra hb
    rw [Bool.not_eq_false] at hb
    have h2 := startsAny_MA_head hb
    rw [risLine_take2 t (nfc v) c1 c2 ht] at h2
    simp only [List.cons.injEq, and_true] at h2
    exact hne ⟨h2.1, h2.2⟩
  have hPHD : startsAny prefixesPHD (risLine t (nfc v)) = false := by
    by_contra hb
    rw [Bool.not_eq_false] at hb
    have h2 := startsAny_PHD_head hb
    rw [risLine_take2 t (nfc v) c1 c2 ht] at h2
    simp only [List.cons.injEq, and_true] at h2
    exact hne ⟨h2.1, h2.2⟩
  simp [hMA, hPHD]

/-! ### The per-record pipeline, assembled -/

lemma normalizeRecord_linesOfRecord (src : SourceRecord) :
    normalizeRecord (linesOfRecord src) =
      "TY  - THES" :: cleanBody (coreEntries src) ++ ["ER  - "] := by
  show "TY  - THES" :: cleanBody ((coreEntries src ++ ["ER  - "]).dropLast) ++
      [("TY  - THES" :: (coreEntries src ++ ["ER  - "])).getLastD ""] = _
  rw [show (coreEntries src ++ ["ER  - "]).dropLast = coreEntries src from by simp,
    show ("TY  - THES" :: (coreEntries src ++ ["ER  - "])).getLastD "" = "ER  - " from by
      rw [show "TY  - THES" :: (coreEntries src ++ ["ER  - "]) =
        ("TY  - THES" :: coreEntries src) ++ ["ER  - "] from by simp]
      simp [List.getLastD]]

lemma processOne_eq (src : SourceRecord) :
    processOne src =
      "TY  - THES" :: (cleanBody (coreEntries src)).map canonLine ++ ["ER  - "] := by
  unfold processOne
  rw [normalizeRecord_linesOfRecord]
  simp only [List.map_cons, List.map_append, List.map_nil]
  rw [show canonLine "TY  - THES" = "TY  - THES" from by decide,
    show canonLine "ER  - " = "ER  - " from by decide]

/-! ### The whole pipeline on well-formed input -/

lemma mem_intersperse {α : Type} {x a : α} {l : List α}
    (hx : x ∈ List.intersperse a l) : x = a ∨ x ∈ l := by
  induction l with
  | nil => simp at hx
  | cons b rest ih =>
    cases rest with
    | nil =>
      simp only [List.intersperse_singleton, List.mem_singleton] at hx
      exact Or.inr (by simp [hx])
    | cons c rest' =>
      rw [List.intersperse_cons_cons] at hx
      rcases List.mem_cons.mp hx with rfl | hx
      · exact Or.inr (by simp)
      rcases List.mem_cons.mp hx with rfl | hx
      · exact Or.inl rfl
      rcases ih hx with hh | hh
      · exact Or.inl hh
      · exact Or.inr (by simp [hh])

lemma map_intersperse {α β : Type} (f : α → β) (a : α) (l : List α) :
    (List.intersperse a l).map f = List.intersperse (f a) (l.map f) := by
  induction l with
  | nil => rfl
  | cons b rest ih =>
    cases rest with
    | nil => rfl
    | cons c rest' =>
      simp only [List.intersperse_cons_cons, List.map_cons, ih]

lemma finalRecords_eq (srcs : List SourceRecord) (h : IntermediateOk srcs) :
    finalRecords srcs = List.intersperse ["", ""] (srcs.map processOne) := by
  unfold finalRecords processedRecords
  rw [splitRecords_eq srcs h]
  have hne : ∀ r ∈ List.intersperse [""] (srcs.map linesOfRecord), (!r.isEmpty) = true := by
    intro r hr
    rcases mem_intersperse hr with rfl | hr
    · decide
    · obtain ⟨s, -, rfl⟩ := List.mem_map.mp hr
      simp [linesOfRecord]
  rw [filter_all_true hne, map_intersperse, map_intersperse, List.map_map, List.map_map]
  rw [show (normalizeRecord [""]).map canonLine = ["", ""] from by decide]
  rfl

/-! ### Shape of the lines of a processed record -/

lemma fieldEntries_shape (src : SourceRecord) :
    ∀ e ∈ src.flatMap (fun f => mapField src f), ∃ t v, t ∈ fieldTags ∧ e = risLine t v := by
  intro e he
  rw [List.mem_flatMap] at he
  obtain ⟨f, hf, he⟩ := he
  exact mapField_shape src f e he

lemma coreEntries_shape (src : SourceRecord) :
    ∀ e ∈ coreEntries src, ∃ t v, t ∈ bodyTags ∧ e = risLine t v := by
  intro e he
  unfold coreEntries at he
  rw [List.mem_append] at he
  rcases he with he | he
  · obtain ⟨t, v, ht, rfl⟩ := fieldEntries_shape src e he
    exact ⟨t, v, by simp [bodyTags, ht], rfl⟩
  · simp only [List.mem_cons, List.mem_singleton, List.not_mem_nil, or_false] at he
    rcases he with rfl | rfl
    · exact ⟨"CY", "Montréal", by decide, by decide⟩
    · exact ⟨"PB", "Université de Montréal", by decide, by decide⟩

lemma cleanBody_cases (src : SourceRecord) :
    ∀ x ∈ cleanBody (coreEntries src),
      (∃ e ∈ coreEntries src, x = nfc e) ∨ (∃ m, x = risLine "AB" m) := by
  intro x hx
  unfold cleanBody at hx
  rw [mergeAbstracts_eq, List.mem_append] at hx
  rcases hx with hx | hx
  · have hx2 := List.mem_of_mem_filter hx
    rw [mem_sortedSet] at hx2
    obtain ⟨e, he, rfl⟩ := List.mem_map.mp hx2
    exact Or.inl ⟨e, he, rfl⟩
  · by_cases hf : (sortedSet ((coreEntries src).map nfc)).filter isLongAB = []
    · rw [if_pos hf] at hx
      exact absurd hx (List.not_mem_nil x)
    · rw [if_neg hf, List.mem_singleton] at hx
      exact Or.inr ⟨_, hx⟩

lemma canonLine_shaped (t v : String) (ht : t ∈ bodyTags) :
    ∃ w, canonLine (risLine t v) = risLine t w := by
  by_cases hM : t = "M3"
  · subst hM
    unfold canonLine
    rw [nfc_risLine _ v (by decide)]
    dsimp only
    split_ifs
    · exact ⟨"Mémoire de maîtrise (M.A.)", by decide⟩
    · exact ⟨"Thèse de doctorat (Ph.D.)", by decide⟩
    · exact ⟨nfc v, rfl⟩
  · obtain ⟨c1, c2, hdata, hne⟩ : ∃ c1 c2, t.data = [c1, c2] ∧ ¬(c1 = 'M' ∧ c2 = '3') := by
      fin_cases ht <;> first
        | exact absurd rfl hM
        | exact ⟨_, _, rfl, by decide⟩
    have hB : ∀ c ∈ (t ++ "  - ").data, isBase c = false := by
      fin_cases ht <;> decide
    exact ⟨nfc v, canonLine_risLine_of_ne_M3 t v c1 c2 hdata hB hne⟩

lemma finalBody_shape (src : SourceRecord) :
    ∀ x ∈ (cleanBody (coreEntries src)).map canonLine,
      ∃ t w, t ∈ bodyTags ∧ x = risLine t w := by
  intro x hx
  obtain ⟨y, hy, rfl⟩ := List.mem_map.mp hx
  rcases cleanBody_cases src y hy with ⟨e, he, rfl⟩ | ⟨m, rfl⟩
  · obtain ⟨t, v, ht, rfl⟩ := coreEntries_shape src e he
    have hB : ∀ c ∈ (t ++ "  - ").data, isBase c = false := by
      fin_cases ht <;> decide
    rw [nfc_risLine t v hB]
    obtain ⟨w, hw⟩ := canonLine_shaped t (nfc v) ht
    exact ⟨t, w, ht, hw⟩
  · obtain ⟨w, hw⟩ := canonLine_shaped "AB" m (by decide)
    exact ⟨"AB", w, by decide, hw⟩

lemma take2_of_pyStarts {l p : String} {c1 c2 : Char} {rest : List Char}
    (hp : p.data = c1 :: c2 :: rest) (h : pyStarts l p = true) :
    l.data.take 2 = [c1, c2] := by
  obtain ⟨t, ht⟩ := startsL_iff.mp h
  rw [ht, hp]
  rfl

lemma shaped_not_TY_ER (t w : String) (ht : t ∈ bodyTags) :
    pyStarts (risLine t w) "TY  - " = false ∧ pyStarts (risLine t w) "ER  - " = false := by
  have hsep : ("  - " : String).data = [' ', ' ', '-', ' '] := rfl
  have hTY : ("TY  - " : String).data = ['T', 'Y', ' ', ' ', '-', ' '] := rfl
  have hER : ("ER  - " : String).data = ['E', 'R', ' ', ' ', '-', ' '] := rfl
  fin_cases ht <;> constructor <;>
    simp [pyStarts, risLine, strData_append, startsL, hsep, hTY, hER]

/-! ### Counting lemmas -/

lemma risLine_ne_of_take2 {t w t' w' : String} {c1 c2 d1 d2 : Char}
    (ht : t.data = [c1, c2]) (ht' : t'.data = [d1, d2]) (hne : ¬(c1 = d1 ∧ c2 = d2)) :
    risLine t w ≠ risLine t' w' := by
  intro hEq
  have h2 := congrArg (fun s => s.data.take 2) hEq
  simp only at h2
  rw [risLine_take2 t w c1 c2 ht, risLine_take2 t' w' d1 d2 ht'] at h2
  simp only [List.cons.injEq, and_true] at h2
  exact hne ⟨h2.1, h2.2⟩

lemma count_map_canonLine (body : List String) (a : String)
    (ha : canonLine a = a)
    (h : ∀ x ∈ body, canonLine x = a → x = a) :
    (body.map canonLine).count a = body.count a := by
  induction body with
  | nil => rfl
  | cons x rest ih =>
    rw [List.map_cons, List.count_cons, List.count_cons,
      ih (fun z hz => h z (by simp [hz]))]
    by_cases hx : x = a
    · subst hx
      rw [ha]
    · have hcx : canonLine x ≠ a := fun hc => hx (h x (by simp) hc)
      simp [hx, hcx]

lemma count_filter_of_pos {p : String → Bool} {l : List String} {a : String}
    (ha : p a = true) : (l.filter p).count a = l.count a := by
  induction l with
  | nil => rfl
  | cons x rest ih =>
    rw [List.filter_cons]
    by_cases hp : p x = true
    · rw [if_pos hp, List.count_cons, List.count_cons, ih]
    · have hxa : ¬(x = a) := fun h2 => hp (h2 ▸ ha)
      rw [if_neg hp, List.count_cons, ih]
      simp [hxa]

lemma map_nfc_core (src : SourceRecord) :
    (coreEntries src).map nfc =
      (src.flatMap (fun f => mapField src f)).map nfc ++ [cyConst, pbConst] := by
  unfold coreEntries
  rw [List.map_append,
    show List.map nfc [cyConst, pbConst] = [cyConst, pbConst] from by decide]

lemma fieldEntries_nfc_ne (src : SourceRecord) :
    ∀ x ∈ (src.flatMap (fun f => mapField src f)).map nfc, x ≠ cyConst ∧ x ≠ pbConst := by
  intro x hx
  obtain ⟨e, he, rfl⟩ := List.mem_map.mp hx
  obtain ⟨t, v, ht, rfl⟩ := fieldEntries_shape src e he
  rw [show cyConst = risLine "CY" "Montréal" from by decide,
    show pbConst = risLine "PB" "Université de Montréal" from by decide]
  fin_cases ht <;> rw [nfc_risLine _ v (by decide)] <;>
    exact ⟨risLine_ne_of_take2 rfl rfl (by decide),
      risLine_ne_of_take2 rfl rfl (by decide)⟩

lemma count_core_nfc (src : SourceRecord) :
    ((coreEntries src).map nfc).count cyConst = 1 ∧
    ((coreEntries src).map nfc).count pbConst = 1 := by
  rw [map_nfc_core, List.count_append, List.count_append]
  have h1 : ((src.flatMap (fun f => mapField src f)).map nfc).count cyConst = 0 := by
    rw [List.count_eq_zero]
    intro hmem
    exact (fieldEntries_nfc_ne src _ hmem).1 rfl
  have h2 : ((src.flatMap (fun f => mapField src f)).map nfc).count pbConst = 0 := by
    rw [List.count_eq_zero]
    intro hmem
    exact (fieldEntries_nfc_ne src _ hmem).2 rfl
  rw [h1, h2]
  exact ⟨by decide, by decide⟩

lemma cleanBody_count (src : SourceRecord) :
    (cleanBody (coreEntries src)).count cyConst = 1 ∧
    (cleanBody (coreEntries src)).count pbConst = 1 := by
  unfold cleanBody
  rw [mergeAbstracts_eq, List.count_append, List.count_append]
  have hmemcy : cyConst ∈ (coreEntries src).map nfc := by
    rw [map_nfc_core]
    simp
  have hmempb : pbConst ∈ (coreEntries src).map nfc := by
    rw [map_nfc_core]
    simp
  have hscy : (sortedSet ((coreEntries src).map nfc)).count cyConst = 1 :=
    List.count_eq_one_of_mem (sortedSet_nodup _) (mem_sortedSet.mpr hmemcy)
  have hspb : (sortedSet ((coreEntries src).map nfc)).count pbConst = 1 :=
    List.count_eq_one_of_mem (sortedSet_nodup _) (mem_sortedSet.mpr hmempb)
  have hifcy : (if (sortedSet ((coreEntries src).map nfc)).filter isLongAB = [] then []
      else [risLine "AB" (String.intercalate "\n\n"
        (((sortedSet ((coreEntries src).map nfc)).filter isLongAB).map abContent))]).count
        cyConst = 0 := by
    split_ifs
    · rfl
    · rw [List.count_eq_zero]
      intro hmem
      rw [List.mem_singleton] at hmem
      rw [show cyConst = risLine "CY" "Montréal" from by decide] at hmem
      exact risLine_ne_of_take2 rfl rfl (by decide) hmem.symm
  have hifpb : (if (sortedSet ((coreEntries src).map nfc)).filter isLongAB = [] then []
      else [risLine "AB" (String.intercalate "\n\n"
        (((sortedSet ((coreEntries src).map nfc)).filter isLongAB).map abContent))]).count
        pbConst = 0 := by
    split_ifs
    · rfl
    · rw [List.count_eq_zero]
      intro hmem
      rw [List.mem_singleton] at hmem
      rw [show pbConst = risLine "PB" "Université de Montréal" from by decide] at hmem
      exact risLine_ne_of_take2 rfl rfl (by decide) hmem.symm
  rw [hifcy, hifpb, count_filter_of_pos (by decide), count_filter_of_pos (by decide),
    hscy, hspb]
  exact ⟨rfl, rfl⟩

lemma canon_eq_const_imp (src : SourceRecord) :
    ∀ x ∈ cleanBody (coreEntries src),
      (canonLine x = cyConst → x = cyConst) ∧ (canonLine x = pbConst → x = pbConst) := by
  intro x hx
  rcases cleanBody_cases src x hx with ⟨e, he, rfl⟩ | ⟨m, rfl⟩
  · unfold coreEntries at he
    rw [List.mem_append] at he
    rcases he with he | he
    · obtain ⟨t, v, ht, rfl⟩ := fieldEntries_shape src e he
      have hB : ∀ c ∈ (t ++ "  - ").data, isBase c = false := by
        fin_cases ht <;> decide
      rw [nfc_risLine t v hB]
      obtain ⟨w, hw⟩ := canonLine_shaped t (nfc v) (by simp [bodyTags, ht])
      rw [hw]
      constructor <;> intro hEq <;> exfalso
      · rw [show cyConst = risLine "CY" "Montréal" from by decide] at hEq
        revert hEq
        fin_cases ht <;> exact risLine_ne_of_take2 rfl rfl (by decide)
      · rw [show pbConst = risLine "PB" "Université de Montréal" from by decide] at hEq
        revert hEq
        fin_cases ht <;> exact risLine_ne_of_take2 rfl rfl (by decide)
    · simp only [List.mem_cons, List.mem_singleton, List.not_mem_nil, or_false] at he
      rcases he with rfl | rfl
      · rw [show nfc cyConst = cyConst from by decide]
        exact ⟨fun _ => rfl, fun hEq => absurd hEq (by decide)⟩
      · rw [show nfc pbConst = pbConst from by decide]
        exact ⟨fun hEq => absurd hEq (by decide), fun _ => rfl⟩
  · obtain ⟨w, hw⟩ := canonLine_shaped "AB" m (by decide)
    rw [hw]
    constructor <;> intro hEq <;> exfalso
    · rw [show cyConst = risLine "CY" "Montréal" from by decide] at hEq
      exact risLine_ne_of_take2 rfl rfl (by decide) hEq
    · rw [show pbConst = risLine "PB" "Université de Montréal" from by decide] at hEq
      exact risLine_ne_of_take2 rfl rfl (by decide) hEq

lemma processOne_count (src : SourceRecord) :
    (processOne src).count cyConst = 1 ∧ (processOne src).count pbConst = 1 := by
  rw [processOne_eq]
  have hmapcy : ((cleanBody (coreEntries src)).map canonLine).count cyConst =
      (cleanBody (coreEntries src)).count cyConst :=
    count_map_canonLine _ _ (by decide) (fun x hx => (canon_eq_const_imp src x hx).1)
  have hmappb : ((cleanBody (coreEntries src)).map canonLine).count pbConst =
      (cleanBody (coreEntries src)).count pbConst :=
    count_map_canonLine _ _ (by decide) (fun x hx => (canon_eq_const_imp src x hx).2)
  simp only [List.count_append, List.count_cons, List.count_nil, hmapcy, hmappb,
    (cleanBody_count src).1, (cleanBody_count src).2]
  constructor <;> decide

/-! ### Counting `TY`/`ER` tags in a processed record -/

lemma finalBody_no_TYER (src : SourceRecord) :
    ∀ x ∈ (cleanBody (coreEntries src)).map canonLine,
      pyStarts x "TY  - " = false ∧ pyStarts x "ER  - " = false := by
  intro x hx
  obtain ⟨t, w, ht, rfl⟩ := finalBody_shape src x hx
  exact shaped_not_TY_ER t w ht

lemma processOne_countP_TYER (src : SourceRecord) :
    (processOne src).countP (fun l => pyStarts l "TY  - ") = 1 ∧
    (processOne src).countP (fun l => pyStarts l "ER  - ") = 1 := by
  rw [processOne_eq]
  have hTY : ((cleanBody (coreEntries src)).map canonLine).countP
      (fun l => pyStarts l "TY  - ") = 0 := by
    rw [List.countP_eq_zero]
    intro a ha
    simp [(finalBody_no_TYER src a ha).1]
  have hER : ((cleanBody (coreEntries src)).map canonLine).countP
      (fun l => pyStarts l "ER  - ") = 0 := by
    rw [List.countP_eq_zero]
    intro a ha
    simp [(finalBody_no_TYER src a ha).2]
  simp only [List.countP_append, List.countP_cons, List.countP_nil, hTY, hER]
  constructor <;> decide

lemma normalizeRecord_head_last (rec : List String) (h : rec ≠ []) :
    (normalizeRecord rec).head? = rec.head? ∧
    (normalizeRecord rec).getLast? = rec.getLast? := by
  cases rec with
  | nil => exact absurd rfl h
  | cons a rest =>
    constructor
    · rfl
    · have hsome : ∃ y, (a :: rest).getLast? = some y := by
        cases hgl : (a :: rest).getLast? with
        | none => exact absurd (List.getLast?_eq_none_iff.mp hgl) (by simp)
        | some y => exact ⟨y, rfl⟩
      obtain ⟨y, hy⟩ := hsome
      show (a :: cleanBody rest.dropLast ++ [(a :: rest).getLastD ""]).getLast? = _
      rw [show a :: cleanBody rest.dropLast ++ [(a :: rest).getLastD ""] =
        (a :: cleanBody rest.dropLast) ++ [(a :: rest).getLastD ""] from rfl,
        List.getLast?_concat, hy]
      rw [show (a :: rest).getLastD "" = ((a :: rest).getLast?).getD "" from by
        simp [List.getLastD_eq_getLast?], hy]
      rfl

lemma processOne_headIsTY (src : SourceRecord) : headIsTY (processOne src) = true := by
  rw [processOne_eq]
  rfl

lemma filter_intersperse_headIsTY (l : List (List String))
    (h : ∀ x ∈ l, headIsTY x = true) :
    (List.intersperse ["", ""] l).filter headIsTY = l := by
  induction l with
  | nil => rfl
  | cons a rest ih =>
    cases rest with
    | nil =>
      rw [List.intersperse_singleton, List.filter_cons, if_pos (h a (by simp))]
      rfl
    | cons b rest' =>
      rw [List.intersperse_cons_cons, List.filter_cons, List.filter_cons,
        if_pos (h a (by simp)), if_neg (by decide : ¬(headIsTY ["", ""] = true)),
        ih (fun x hx => h x (by simp [hx]))]

/-! ### Reading back the final file -/

lemma finalBlocks_data (recs : List (List String)) :
    (concatTexts (recs.map (fun r => concatTexts (r.map (fun l => l ++ "\n")) ++ "\n"))).data =
      (((recs.map (fun r => r ++ [""])).flatten).map (fun l => l.data ++ ['\n'])).flatten := by
  induction recs with
  | nil => rfl
  | cons r rest ih =>
    show ((concatTexts (r.map (fun l => l ++ "\n")) ++ "\n") ++
      concatTexts (rest.map (fun r => concatTexts (r.map (fun l => l ++ "\n")) ++ "\n"))).data = _
    rw [strData_append, strData_append, concatTexts_data, ih]
    have hmap : List.map String.data (List.map (fun l => l ++ "\n") r) =
        List.map (fun l : String => l.data ++ ['\n']) r := by
      rw [List.map_map]
      apply List.map_congr_left
      intro l hl
      show (l ++ "\n").data = l.data ++ ['\n']
      rw [strData_append]
    rw [hmap]
    simp

lemma readLines_final (srcs : List SourceRecord)
    (h : ∀ r ∈ finalRecords srcs, ∀ l ∈ r, noNL l = true) :
    readLines (finalText srcs) = ((finalRecords srcs).map (fun r => r ++ [""])).flatten := by
  unfold finalText readLines
  rw [finalBlocks_data]
  have hnl : ∀ l ∈ ((finalRecords srcs).map (fun r => r ++ [""])).flatten, noNL l = true := by
    intro l hl
    rw [List.mem_flatten] at hl
    obtain ⟨r, hr, hl⟩ := hl
    obtain ⟨r0, hr0, rfl⟩ := List.mem_map.mp hr
    rcases List.mem_append.mp hl with hl | hl
    · exact h r0 hr0 l hl
    · simp only [List.mem_singleton] at hl
      subst hl
      decide
  have hb := splitNL_blocks (((finalRecords srcs).map (fun r => r ++ [""])).flatten) [] hnl
  rw [List.append_nil] at hb
  rw [hb, show splitNL [] = [] from rfl, List.append_nil, List.map_map]
  simp [Function.comp_def, strEta]

/-! ### Remaining helpers for the claims -/

lemma noNL_canonLine (y : String) (h : noNL y = true) : noNL (canonLine y) = true := by
  unfold canonLine
  dsimp only
  split_ifs
  · decide
  · decide
  · exact noNL_nfc y h

lemma processOne_noNL (src : SourceRecord) (h : ∀ e ∈ coreEntries src, noNL e = true)
    (hnl : ∀ l ∈ sortedSet ((coreEntries src).map nfc), isLongAB l = false) :
    ∀ l ∈ processOne src, noNL l = true := by
  intro l hl
  rw [processOne_eq] at hl
  rcases List.mem_append.mp hl with hl | hl
  · rcases List.mem_cons.mp hl with rfl | hl
    · decide
    obtain ⟨y, hy, rfl⟩ := List.mem_map.mp hl
    unfold cleanBody at hy
    rw [mergeAbstracts_of_noLong _ hnl, mem_sortedSet] at hy
    obtain ⟨e, he, rfl⟩ := List.mem_map.mp hy
    exact noNL_canonLine _ (noNL_nfc _ (h e he))
  · simp only [List.mem_singleton] at hl
    subst hl
    decide

lemma getSubfields_eq_nil (f : Field) (codes : List String)
    (h : ∀ p ∈ f.subfields, p.1 ∉ codes) : getSubfields f codes = [] := by
  unfold getSubfields
  rw [filter_all_false (fun p hp => by
    have h2 := h p hp
    revert h2
    cases hc : codes.contains p.1
    · intro _; rfl
    · intro h2
      exact absurd (List.mem_of_elem_eq_true hc) h2)]
  rfl

lemma fieldTag_not_CY (t w : String) (ht : t ∈ fieldTags) :
    pyStarts (risLine t w) "CY  - " = false := by
  have hsep : ("  - " : String).data = [' ', ' ', '-', ' '] := rfl
  have hCY : ("CY  - " : String).data = ['C', 'Y', ' ', ' ', '-', ' '] := rfl
  fin_cases ht <;> simp [pyStarts, risLine, strData_append, startsL, hsep, hCY]

/-! ### Claim C1 -/

/-- **C1.**  A run of the pipeline on `N` parsed source records (whose
mapper entries are single lines, per the `OutputLine` data model) yields a
final output containing exactly `N` `FinalRecord`s — the `TY`-headed
records — in the same relative order as the source records, each computed
by the same per-record function `processOne`, so duplicate source records
yield duplicate `FinalRecord`s; the full final list is exactly these `N`
records interleaved with the spurious two-line empty records that the
splitter makes from the blank line following each intermediate record. -/
theorem C1_order_preservation (srcs : List SourceRecord) (h : IntermediateOk srcs) :
    (finalRecords srcs).filter headIsTY = srcs.map processOne ∧
    ((finalRecords srcs).filter headIsTY).length = srcs.length ∧
    finalRecords srcs = List.intersperse ["", ""] (srcs.map processOne) := by
  have hmain := finalRecords_eq srcs h
  have hfil : (finalRecords srcs).filter headIsTY = srcs.map processOne := by
    rw [hmain]
    refine filter_intersperse_headIsTY _ fun x hx => ?_
    obtain ⟨s, -, rfl⟩ := List.mem_map.mp hx
    exact processOne_headIsTY s
  exact ⟨hfil, by rw [hfil, List.length_map], hmain⟩

/-- Witness for C1 at a concrete two-record run. -/
theorem C1_order_preservation_witness :
    (finalRecords demoSrcs).filter headIsTY = demoSrcs.map processOne ∧
    ((finalRecords demoSrcs).filter headIsTY).length = demoSrcs.length :=
  ⟨(C1_order_preservation demoSrcs (by decide)).1,
   (C1_order_preservation demoSrcs (by decide)).2.1⟩

/-! ### Claim C2 -/

/-- **C2.**  Every `FinalRecord` produced by the pipeline (`TY`-headed
record of the final output) begins with exactly one `TY`-tagged line —
its first line, `"TY  - THES"` — and ends with exactly one `ER`-tagged
line — its last line, `"ER  - "`; and the Normalizer keeps the first and
last line of every record verbatim: they are not reordered, deduplicated
or changed. -/
theorem C2_ty_er_invariant (srcs : List SourceRecord) (h : IntermediateOk srcs) :
    (∀ r ∈ finalRecords srcs, headIsTY r = true →
      r.countP (fun l => pyStarts l "TY  - ") = 1 ∧
      r.head? = some "TY  - THES" ∧
      r.countP (fun l => pyStarts l "ER  - ") = 1 ∧
      r.getLast? = some "ER  - ") ∧
    (∀ rec : List String, rec ≠ [] →
      (normalizeRecord rec).head? = rec.head? ∧
      (normalizeRecord rec).getLast? = rec.getLast?) := by
  constructor
  · intro r hr hhead
    rw [finalRecords_eq srcs h] at hr
    rcases mem_intersperse hr with rfl | hr
    · exact absurd hhead (by decide)
    obtain ⟨s, -, rfl⟩ := List.mem_map.mp hr
    refine ⟨(processOne_countP_TYER s).1, ?_, (processOne_countP_TYER s).2, ?_⟩
    · rw [processOne_eq]
      rfl
    · rw [processOne_eq,
        show "TY  - THES" :: (cleanBody (coreEntries s)).map canonLine ++ ["ER  - "] =
          ("TY  - THES" :: (cleanBody (coreEntries s)).map canonLine) ++ ["ER  - "] from rfl,
        List.getLast?_concat]
  · exact fun rec hrec => normalizeRecord_head_last rec hrec

/-- Witness for C2 at a concrete record. -/
theorem C2_ty_er_invariant_witness :
    (processOne ([] : SourceRecord)).countP (fun l => pyStarts l "TY  - ") = 1 ∧
    (processOne ([] : SourceRecord)).getLast? = some "ER  - " := by
  have h := (C2_ty_er_invariant demoSrcs (by decide)).1 (processOne [])
    (by decide) (by decide)
  exact ⟨h.1, h.2.2.2⟩

/-! ### Claim C3 (corrected) -/

/-- **C3, counterexample.**  On two empty source records the intermediate
file contains a blank line after each record — in particular one strictly
between the two records, which therefore do not run together — and the
final output file contains four blank lines between the two records, not
one. -/
theorem C3_blank_lines_counterexample :
    readLines (intermediateText demoSrcs) =
      ["TY  - THES", "CY  - Montréal", "PB  - Université de Montréal", "ER  - ", "",
       "TY  - THES", "CY  - Montréal", "PB  - Université de Montréal", "ER  - ", ""] ∧
    "" ∈ (readLines (intermediateText demoSrcs)).dropLast ∧
    readLines (finalText demoSrcs) =
      ["TY  - THES", "CY  - Montréal", "PB  - Université de Montréal", "ER  - ",
       "", "", "", "",
       "TY  - THES", "CY  - Montréal", "PB  - Université de Montréal", "ER  - ", ""] :=
  ⟨by decide, by decide, by decide⟩

/-- **C3, amended.**  With single-line entries, the intermediate file
consists of each record's lines followed by exactly one blank line (the
`"ER  - \n"` entry plus the written newline), so consecutive intermediate
records are separated by one blank line rather than running together; and
— when no long abstracts occur — the final file consists, for each element
of the final record list (the real records interleaved with the spurious
`["", ""]` records), of its lines followed by one blank line, which puts
four blank lines between consecutive real records. -/
theorem C3_blank_lines_amended (srcs : List SourceRecord) (h : IntermediateOk srcs)
    (h2 : NoLongAbstracts srcs) :
    readLines (intermediateText srcs) = srcs.flatMap (fun s => linesOfRecord s ++ [""]) ∧
    readLines (finalText srcs) =
      ((List.intersperse ["", ""] (srcs.map processOne)).map (fun r => r ++ [""])).flatten := by
  refine ⟨readLines_intermediate srcs h, ?_⟩
  have hnl : ∀ r ∈ finalRecords srcs, ∀ l ∈ r, noNL l = true := by
    intro r hr l hl
    rw [finalRecords_eq srcs h] at hr
    rcases mem_intersperse hr with rfl | hr
    · simp only [List.mem_cons, List.mem_singleton, List.not_mem_nil, or_false] at hl
      rcases hl with rfl | rfl <;> decide
    obtain ⟨s, hs, rfl⟩ := List.mem_map.mp hr
    exact processOne_noNL s (h s hs) (h2 s hs) l hl
  rw [readLines_final srcs hnl, finalRecords_eq srcs h]

/-- Witness for the amended C3 at a concrete two-record run. -/
theorem C3_blank_lines_amended_witness :
    readLines (intermediateText demoSrcs) =
      demoSrcs.flatMap (fun s => linesOfRecord s ++ [""]) :=
  (C3_blank_lines_amended demoSrcs (by decide) (by decide)).1

/-! ### Claim C4 (corrected) -/

/-- **C4, counterexample.**  A body of two distinct 41-word abstract lines:
the cleaned output replaces both by a single merged abstract line, so the
set of post-NFC body lines of the cleaned output differs from that of the
input body (and the output is not the sorted deduplication of the input). -/
theorem C4_dedup_counterexample :
    ¬ ((∀ l ∈ cleanBody c4body, l ∈ c4body.map nfc) ∧
       (∀ l ∈ c4body.map nfc, l ∈ cleanBody c4body) ∧
       (cleanBody c4body).Nodup ∧
       (cleanBody c4body).Pairwise (fun a b => strLt a b = true)) := by
  intro hcl
  have h1 := hcl.2.1 (nfc (longAB "a")) (by decide)
  revert h1
  decide

/-- **C4, amended.**  For every record body whose sorted deduplicated NFC
image contains no long abstract (so the merge step is the identity), the
cleaned output body has exactly the distinct NFC-normalized lines of the
input body, contains no line twice, and is sorted strictly increasingly by
full line content (code-point order); with long abstracts present the
merge replaces them by one combined trailing line, which is what the
counterexample exhibits. -/
theorem C4_dedup_amended (body : List String)
    (h : ∀ l ∈ sortedSet (body.map nfc), isLongAB l = false) :
    (∀ l ∈ cleanBody body, l ∈ body.map nfc) ∧
    (∀ l ∈ body.map nfc, l ∈ cleanBody body) ∧
    (cleanBody body).Nodup ∧
    (cleanBody body).Pairwise (fun a b => strLt a b = true) := by
  unfold cleanBody
  rw [mergeAbstracts_of_noLong _ h]
  exact ⟨fun l hl => mem_sortedSet.mp hl, fun l hl => mem_sortedSet.mpr hl,
    sortedSet_nodup _, sortedSet_pairwise _⟩

/-- Witness for the amended C4 at a concrete body with a duplicate. -/
theorem C4_dedup_amended_witness :
    (∀ l ∈ cleanBody ["TI  - b", "TI  - a", "TI  - a"],
      l ∈ (["TI  - b", "TI  - a", "TI  - a"] : List String).map nfc) ∧
    (cleanBody ["TI  - b", "TI  - a", "TI  - a"]).Nodup := by
  have h := C4_dedup_amended ["TI  - b", "TI  - a", "TI  - a"] (by decide)
  exact ⟨h.1, h.2.2.1⟩

/-! ### Claim C5 -/

/-- **C5.**  The abstract merge of the per-record cleaning: every abstract
line whose payload has strictly more than 40 whitespace-separated tokens
is removed, their stripped payloads are concatenated in the (sorted) body
order with a blank-line separator into a single new trailing abstract
line; every abstract line with at most 40 tokens — 40-token lines at the
boundary included — is kept verbatim; and when no long abstract exists no
merged line is created.  The cleaning stage applies exactly this merge to
the sorted deduplicated NFC body. -/
theorem C5_abstract_merge (body : List String) :
    mergeAbstracts body = body.filter (fun l => !isLongAB l) ++
      (if body.filter isLongAB = [] then []
       else [risLine "AB" (String.intercalate "\n\n"
         ((body.filter isLongAB).map abContent))]) ∧
    cleanBody body = mergeAbstracts (sortedSet (body.map nfc)) ∧
    isLongAB (risLine "AB" (String.intercalate " " (List.replicate 40 "w"))) = false ∧
    isLongAB (risLine "AB" (String.intercalate " " (List.replicate 41 "w"))) = true :=
  ⟨mergeAbstracts_eq body, rfl, by decide, by decide⟩

/-! ### Claim C6 -/

/-- **C6.**  The thesis-type canonicalizer maps `"M3  - Thèse (Ph. D.)"`
to the doctoral canonical string and `"M3  - Mémoire (M.A.)"` to the
Master's canonical string, passes `"M3  - Something unrecognized"` through
unchanged, and checks the Master's list first: any line whose NFC form
matches a Master's prefix becomes the Master's canonical string. -/
theorem C6_canonicalizer :
    canonLine "M3  - Thèse (Ph. D.)" = "M3  - Thèse de doctorat (Ph.D.)" ∧
    canonLine "M3  - Mémoire (M.A.)" = "M3  - Mémoire de maîtrise (M.A.)" ∧
    canonLine "M3  - Something unrecognized" = "M3  - Something unrecognized" ∧
    (∀ l : String, startsAny prefixesMA (nfc l) = true →
      canonLine l = "M3  - Mémoire de maîtrise (M.A.)") := by
  refine ⟨by decide, by decide, by decide, fun l hl => ?_⟩
  unfold canonLine
  dsimp only
  rw [if_pos hl]

/-- Witness for C6's Master's-first clause at a concrete line. -/
theorem C6_canonicalizer_witness :
    canonLine "M3  - Histoire (M.A.)" = "M3  - Mémoire de maîtrise (M.A.)" :=
  C6_canonicalizer.2.2.2 "M3  - Histoire (M.A.)" (by decide)

/-! ### Claim C7 -/

/-- **C7.**  Every real record of the final output (`TY`-headed) contains
exactly one `"CY  - Montréal"` line and exactly one
`"PB  - Université de Montréal"` line, regardless of the content of the
source record: the constant pair is appended unconditionally by the field
mapper and survives the normalizer and canonicalizer exactly once. -/
theorem C7_constant_place_publisher (srcs : List SourceRecord) (h : IntermediateOk srcs) :
    ∀ r ∈ finalRecords srcs, headIsTY r = true →
      r.count "CY  - Montréal" = 1 ∧ r.count "PB  - Université de Montréal" = 1 := by
  intro r hr hhead
  rw [finalRecords_eq srcs h] at hr
  rcases mem_intersperse hr with rfl | hr
  · exact absurd hhead (by decide)
  obtain ⟨s, -, rfl⟩ := List.mem_map.mp hr
  exact processOne_count s

/-- Witness for C7 at a concrete record of a concrete run. -/
theorem C7_constant_place_publisher_witness :
    (processOne ([] : SourceRecord)).count "CY  - Montréal" = 1 ∧
    (processOne ([] : SourceRecord)).count "PB  - Université de Montréal" = 1 :=
  C7_constant_place_publisher demoSrcs (by decide) (processOne []) (by decide) (by decide)

/-! ### Claim C8 (corrected) -/

lemma not_mem_sub {a : String} {small big : List String}
    (hsub2 : ∀ c ∈ small, c ∈ big) (h : a ∉ big) : a ∉ small :=
  fun hc => h (hsub2 a hc)

/-- **C8, counterexample.**  A tag-245 field with no sub-fields does not
produce "no lines": it emits the empty-valued title line `"TI  - "`, so
the claim that a mapped field with absent expected sub-fields produces no
lines is false. -/
theorem C8_mapper_counterexample :
    mapField [] ⟨"245", [], ""⟩ = ["TI  - "] ∧
    mapField [] ⟨"245", [], ""⟩ ≠ [] :=
  ⟨by decide, by decide⟩

/-- **C8, amended.**  The field mapper is a total function (it never
raises): a field whose tag is not in the dispatch table produces no lines
and is silently skipped; a field of a sub-field-reading rule (every
mapped tag except the title rules 245/880 and the control-number rule 001)
none of whose sub-fields carries an expected code produces no lines; the
title rule 245 emits the empty-valued line `"TI  - "` when sub-fields
`a`/`b` are absent; and the title rule 880 emits `"TI  - "` when its
sub-fields `a`, `b` and `6` are all absent, but emits no lines at all
when a linking sub-field 6 starting with `500`/`520` is present and
sub-field `a` is absent (the abstract branch). -/
theorem C8_mapper_amended (rec : SourceRecord) (f : Field) :
    (f.tag ∉ mappedTags → mapField rec f = []) ∧
    (f.tag ∈ subfieldRuleTags →
      (∀ p ∈ f.subfields, p.1 ∉ expectedCodes f.tag) → mapField rec f = []) ∧
    (f.tag = "245" → (∀ p ∈ f.subfields, p.1 ∉ ["a", "b"]) →
      mapField rec f = ["TI  - "]) ∧
    (f.tag = "880" → (∀ p ∈ f.subfields, p.1 ∉ ["a", "b", "6"]) →
      mapField rec f = ["TI  - "]) ∧
    (f.tag = "880" → (∀ p ∈ f.subfields, p.1 ∉ ["a"]) →
      (∃ l0 rest, getSubfields f ["6"] = l0 :: rest ∧
        (pyStarts l0 "500" || pyStarts l0 "520") = true) →
      mapField rec f = []) := by
  obtain ⟨tag, sfs, d⟩ := f
  refine ⟨?_, ?_, ?_, ?_, ?_⟩
  · intro h
    have h1 : ¬ tag = "245" := fun hEq => h (by rw [show (Field.mk tag sfs d).tag = tag from rfl, hEq]; decide)
    have h2 : ¬ tag = "880" := fun hEq => h (by rw [show (Field.mk tag sfs d).tag = tag from rfl, hEq]; decide)
    have h3 : ¬ tag = "100" := fun hEq => h (by rw [show (Field.mk tag sfs d).tag = tag from rfl, hEq]; decide)
    have h4 : ¬ tag = "700" := fun hEq => h (by rw [show (Field.mk tag sfs d).tag = tag from rfl, hEq]; decide)
    have h5 : ¬ tag = "650" := fun hEq => h (by rw [show (Field.mk tag sfs d).tag = tag from rfl, hEq]; decide)
    have h6 : ¬ (tag = "020" ∨ tag = "022") := by
      rintro (hEq | hEq) <;>
        exact h (by rw [show (Field.mk tag sfs d).tag = tag from rfl, hEq]; decide)
    have h7 : ¬ tag = "260" := fun hEq => h (by rw [show (Field.mk tag sfs d).tag = tag from rfl, hEq]; decide)
    have h8 : ¬ tag = "502" := fun hEq => h (by rw [show (Field.mk tag sfs d).tag = tag from rfl, hEq]; decide)
    have h9 : ¬ tag = "500" := fun hEq => h (by rw [show (Field.mk tag sfs d).tag = tag from rfl, hEq]; decide)
    have h10 : ¬ tag = "490" := fun hEq => h (by rw [show (Field.mk tag sfs d).tag = tag from rfl, hEq]; decide)
    have h11 : ¬ tag = "999" := fun hEq => h (by rw [show (Field.mk tag sfs d).tag = tag from rfl, hEq]; decide)
    have h12 : ¬ tag = "852" := fun hEq => h (by rw [show (Field.mk tag sfs d).tag = tag from rfl, hEq]; decide)
    have h13 : ¬ tag = "001" := fun hEq => h (by rw [show (Field.mk tag sfs d).tag = tag from rfl, hEq]; decide)
    have h14 : ¬ tag = "300" := fun hEq => h (by rw [show (Field.mk tag sfs d).tag = tag from rfl, hEq]; decide)
    have h15 : ¬ tag = "041" := fun hEq => h (by rw [show (Field.mk tag sfs d).tag = tag from rfl, hEq]; decide)
    have h16 : ¬ tag = "040" := fun hEq => h (by rw [show (Field.mk tag sfs d).tag = tag from rfl, hEq]; decide)
    have h17 : ¬ tag = "520" := fun hEq => h (by rw [show (Field.mk tag sfs d).tag = tag from rfl, hEq]; decide)
    have h18 : ¬ tag = "586" := fun hEq => h (by rw [show (Field.mk tag sfs d).tag = tag from rfl, hEq]; decide)
    unfold mapField
    rw [if_neg h1, if_neg h2, if_neg h3, if_neg h4, if_neg h5, if_neg h6, if_neg h7,
      if_neg h7, if_neg h8, if_neg h9, if_neg h10, if_neg h11, if_neg h12, if_neg h13,
      if_neg h14, if_neg h15, if_neg h16, if_neg h17, if_neg h18]
  · intro htag hsub
    fin_cases htag <;>
      (dsimp only at hsub ⊢) <;>
      simp only [expectedCodes] at hsub <;>
      simp only [mapField, String.reduceEq, false_or, or_false, true_or, or_true,
        reduceIte] <;>
      first
        | (rw [getSubfields_eq_nil _ _ hsub]; simp)
        | (rw [getSubfields_eq_nil _ _
              (fun p hp => not_mem_sub (by decide : ∀ c0 ∈ ["a"], c0 ∈ ["a", "d"]) (hsub p hp)),
            getSubfields_eq_nil _ _
              (fun p hp => not_mem_sub (by decide : ∀ c0 ∈ ["d"], c0 ∈ ["a", "d"]) (hsub p hp))]
           simp)
  · intro htag hsub
    dsimp only at htag hsub
    subst htag
    simp only [mapField, String.reduceEq, false_or, or_false, true_or, or_true, reduceIte]
    rw [getSubfields_eq_nil _ _ hsub]
    decide
  · intro htag hsub
    dsimp only at htag hsub
    subst htag
    simp only [mapField, String.reduceEq, false_or, or_false, true_or, or_true, reduceIte]
    rw [getSubfields_eq_nil _ _
        (fun p hp => not_mem_sub (by decide : ∀ c0 ∈ ["6"], c0 ∈ ["a", "b", "6"]) (hsub p hp)),
      getSubfields_eq_nil _ _
        (fun p hp => not_mem_sub (by decide : ∀ c0 ∈ ["a", "b"], c0 ∈ ["a", "b", "6"]) (hsub p hp)),
      if_neg (by decide)]
    decide
  · intro htag hsub hex
    dsimp only at htag hsub
    obtain ⟨l0, rest, h6, hstart⟩ := hex
    subst htag
    simp only [mapField, String.reduceEq, false_or, or_false, true_or, or_true, reduceIte]
    rw [h6]
    dsimp only
    rw [if_pos hstart, getSubfields_eq_nil _ _ hsub]
    rfl

/-- Witness for the amended C8: an unmapped tag produces nothing, a mapped
tag with the wrong sub-field produces nothing, a 245 and an 880 field
without title sub-fields produce the empty TI line, and an 880 field in
the abstract branch without sub-field `a` produces nothing. -/
theorem C8_mapper_amended_witness :
    mapField [] ⟨"777", [], ""⟩ = [] ∧
    mapField [] ⟨"100", [("d", "x")], ""⟩ = [] ∧
    mapField [] ⟨"245", [("c", "x")], ""⟩ = ["TI  - "] ∧
    mapField [] ⟨"880", [("c", "x")], ""⟩ = ["TI  - "] ∧
    mapField [] ⟨"880", [("6", "520-01")], ""⟩ = [] :=
  ⟨(C8_mapper_amended [] ⟨"777", [], ""⟩).1 (by decide),
   (C8_mapper_amended [] ⟨"100", [("d", "x")], ""⟩).2.1 (by decide) (by decide),
   (C8_mapper_amended [] ⟨"245", [("c", "x")], ""⟩).2.2.1 (by decide) (by decide),
   (C8_mapper_amended [] ⟨"880", [("c", "x")], ""⟩).2.2.2.1 (by decide) (by decide),
   (C8_mapper_amended [] ⟨"880", [("6", "520-01")], ""⟩).2.2.2.2 (by decide) (by decide)
     ⟨"520-01", [], by decide, by decide⟩⟩

/-! ### Claim C9 -/

/-- **C9.**  The per-record intermediate write discards the results of
`strip_end_spaces` and `remove_consecutive_duplicates` (pure functions):
the written text equals the same write with those two calls removed — the
raw joined entries plus a newline — so trailing spaces and consecutive
duplicate lines reach the intermediate file intact, even though the two
helpers would have removed them. -/
theorem C9_discarded_cleanup :
    (∀ entries : List String, writeRecordEntries entries = writeRecordEntriesDirect entries) ∧
    (∀ src : SourceRecord, writeRecord src = joinNL (risEntries src) ++ "\n") ∧
    writeRecordEntries ["AU  - X ", "AU  - X ", "ER  - \n"] =
      "AU  - X \nAU  - X \nER  - \n\n" ∧
    strip_end_spaces ["AU  - X ", "AU  - X ", "ER  - \n"] ≠
      ["AU  - X ", "AU  - X ", "ER  - \n"] ∧
    remove_consecutive_duplicates ["AU  - X ", "AU  - X ", "ER  - \n"] ≠
      ["AU  - X ", "AU  - X ", "ER  - \n"] :=
  ⟨fun _ => rfl, fun _ => rfl, by decide, by decide, by decide⟩

/-! ### Claim C10 -/

/-- **C10.**  The mapper emits no `CY` line from a tag-260 field: for any
260 field only the date branch (sub-field `c`) runs — the second 260
branch of the source is unreachable — indeed no mapper output line starts
with `"CY  - "` at all, so every `CY`-prefixed entry of every intermediate
record is the appended constant `"CY  - Montréal"`. -/
theorem C10_dead_cy_branch :
    (∀ (rec : SourceRecord) (sfs : List (String × String)) (d : String),
      mapField rec ⟨"260", sfs, d⟩ =
        (getSubfields ⟨"260", sfs, d⟩ ["c"]).map
          (fun sn => risLine "DA" (pyRstrip sn ['.']))) ∧
    (∀ (rec : SourceRecord) (f : Field), ∀ e ∈ mapField rec f,
      pyStarts e "CY  - " = false) ∧
    (∀ (src : SourceRecord), ∀ e ∈ risEntries src,
      pyStarts e "CY  - " = true → e = "CY  - Montréal") := by
  refine ⟨?_, ?_, ?_⟩
  · intro rec sfs d
    simp only [mapField, String.reduceEq, false_or, or_false, true_or, or_true, reduceIte]
  · intro rec f e he
    obtain ⟨t, v, ht, rfl⟩ := mapField_shape rec f e he
    exact fieldTag_not_CY t v ht
  · intro src e he hcy
    unfold risEntries at he
    rcases List.mem_cons.mp he with rfl | he
    · exact absurd hcy (by decide)
    rcases List.mem_append.mp he with he | he
    · unfold coreEntries at he
      rcases List.mem_append.mp he with he | he
      · obtain ⟨t, v, ht, rfl⟩ := fieldEntries_shape src e he
        exact absurd hcy (by rw [fieldTag_not_CY t v ht]; decide)
      · simp only [List.mem_cons, List.mem_singleton, List.not_mem_nil, or_false] at he
        rcases he with rfl | rfl
        · rfl
        · exact absurd hcy (by decide)
    · simp only [List.mem_singleton] at he
      subst he
      exact absurd hcy (by decide)

/-- Witness for C10: a 260 field with both an `a` and a `c` sub-field
yields only the date line, and the constant entry is the only CY line of a
record's entries. -/
theorem C10_dead_cy_branch_witness :
    mapField [] ⟨"260", [("a", "Paris"), ("c", "1999.")], ""⟩ = ["DA  - 1999"] ∧
    "CY  - Montréal" = "CY  - Montréal" := by
  constructor
  · rw [C10_dead_cy_branch.1 [] [("a", "Paris"), ("c", "1999.")] ""]
    decide
  · exact C10_dead_cy_branch.2.2 [⟨"260", [("a", "Paris"), ("c", "1999.")], ""⟩]
      "CY  - Montréal" (by decide) (by decide)

end MarcRIS
